import Mathlib

/-!
# Verification of the MXPythonPlugin message dispatcher and traceability graph engine

Shallow embedding, in Lean 4, of the two cores of this repository:

* the traceability graph engine of `src/Mendix_Navigation_Visualizer/main.py`
  (class `MendixTraceabilityAnalyzer`: graph building, `get_subgraph`,
  `find_paths`, `_traverse`, `find_common_upstream`, `find_common_downstream`);
* the message dispatcher of `src/backjob/main.py` and
  `src/reflect-extension/main.py` (classes `AppController` and
  `MendixMessageHub`).

Python dicts keyed by strings are embedded as `String → Option _` functions or
association lists (with the dict-comprehension "last write wins" rule made
explicit), Python sets as duplicate-free `List String` values used only
through membership (Python's set iteration order is unspecified; every
property proved below is independent of the order we fix), Python exceptions
as `Except String _`, and the opaque JSON payloads that the code never
inspects as a type parameter `δ`.
-/

namespace NavViz

/-- The single-quote character, used in Python error message strings. -/
def sq : String := String.singleton (Char.ofNat 39)

/-- A graph node as built by `_get_or_create_node`:
`{"id": q_name, "type": ..., "name": ..., "module": parts[0]}`. -/
structure Node where
  id : String
  type : String
  name : String
  module : String
deriving DecidableEq

/-- A graph edge as built by `_add_edge`:
`{"source": source, "target": target, "type": type}`. -/
structure Edge where
  source : String
  target : String
  type : String
deriving DecidableEq

/-- The cached full graph `{"nodes": ..., "edges": ...}`
(`self._full_graph_cache`). -/
structure Graph where
  nodes : List Node
  edges : List Edge
deriving DecidableEq

/-- `q_name in self._adj` / `in self._nodes_by_id`: the keys of both dicts are
exactly the ids of the cached nodes (`{node['id']: ... for node in nodes}`). -/
def isNodeId (g : Graph) (i : String) : Bool :=
  g.nodes.any (fun n => n.id == i)

/-- `self._nodes_by_id.get(i)`: dict built by comprehension over the node list,
so a later node with the same id overwrites an earlier one. -/
def nodesById (g : Graph) (i : String) : Option Node :=
  g.nodes.foldl (fun acc n => if n.id == i then some n else acc) none

/-- `self._adj.get(i, [])`.  `_build_graph_if_needed` creates an entry (initially
`[]`) for every node id and then appends `edge['target']` for each edge whose
`source` is a key; a non-key yields the `.get` default `[]`.  The appends happen
in edge-list order, which is exactly `filter` then `map`. -/
def adjGet (g : Graph) (i : String) : List String :=
  if isNodeId g i then (g.edges.filter (fun e => e.source == i)).map (fun e => e.target)
  else []

/-- `self._rev_adj.get(i, [])`, symmetric to `adjGet`. -/
def revAdjGet (g : Graph) (i : String) : List String :=
  if isNodeId g i then (g.edges.filter (fun e => e.target == i)).map (fun e => e.source)
  else []

/-- `get_subgraph(node_ids)`:
`node_id_set = set(node_ids)`;
nodes whose `id` is in the set, edges with both endpoints in the set. -/
def get_subgraph (g : Graph) (nodeIds : List String) : Graph where
  nodes := g.nodes.filter (fun n => n.id ∈ nodeIds)
  edges := g.edges.filter (fun e => e.source ∈ nodeIds ∧ e.target ∈ nodeIds)

/-! ## `_traverse`: reachable set from seed nodes

`_traverse(start_nodes, forward)` runs, for each start node, a worklist loop
with a `visited` set and a FIFO deque, then unions the per-start visited sets.
The Python loop terminates because each enqueue adds a fresh element to
`visited` and the enqueued elements all come from adjacency lists; we embed it
with a fuel argument larger than the total possible number of enqueues
(1 start + at most one per edge endpoint), so the fuel never runs out. -/

/-- One BFS closure worklist loop (body of `_traverse`'s per-start loop):
pop `curr`, and for each neighbour not yet visited, add it to `visited` and
enqueue it (the fold mirrors Python's sequential `for neighbor in ...`). -/
def traverseLoop (step : String → List String) :
    Nat → List String → List String → List String
  | 0, _, vis => vis
  | _ + 1, [], vis => vis
  | f + 1, curr :: q, vis =>
    let vq := (step curr).foldl
      (fun (vq : List String × List String) nb =>
        if nb ∈ vq.1 then vq else (vq.1 ++ [nb], vq.2 ++ [nb]))
      (vis, q)
    traverseLoop step f vq.2 vq.1

/-- Fuel that strictly exceeds the number of loop iterations: iterations =
dequeues + 1 ≤ enqueues + 2, and every enqueue beyond the seed inserts a fresh
member of the edge-endpoint set into `visited`. -/
def traverseFuel (g : Graph) : Nat := g.edges.length + 2

/-- The per-start part of `_traverse`: `visited = {start}`, `q = deque([start])`,
then the worklist loop over the forward or reverse adjacency. -/
def traverseFrom (g : Graph) (forward : Bool) (start : String) : List String :=
  traverseLoop (fun c => if forward then adjGet g c else revAdjGet g c)
    (traverseFuel g) [start] [start]

/-- `s.add(x)` on a list-modelled set. -/
def setInsert (s : List String) (x : String) : List String :=
  if x ∈ s then s else s ++ [x]

/-- `a.update(b)` / set union on list-modelled sets. -/
def setUnion (a b : List String) : List String :=
  b.foldl setInsert a

/-- `_traverse(start_nodes, forward)`: union of the per-start visited sets
(`all_related.update(visited)`). -/
def pyTraverse (g : Graph) (startNodes : List String) (forward : Bool) : List String :=
  startNodes.foldl (fun acc s => setUnion acc (traverseFrom g forward s)) []

/-- `set.intersection(*sets)` over a list of sets.  The callers guard the list
nonempty; the `[]` case is never reached (Python would raise a `TypeError`). -/
def intersectAll : List (List String) → List String
  | [] => []
  | s :: rest => rest.foldl (fun a b => a.filter (fun x => x ∈ b)) s

/-- `find_common_upstream(node_ids)`:
empty input → `{"nodes": [], "edges": []}`; otherwise intersect the per-id
ancestor sets (`_traverse([id], forward=False)`), remove `node_ids` itself
(`common_ancestors_ids - set(node_ids)`, modelled as a filter), and return the
induced subgraph over the remaining ids. -/
def find_common_upstream (g : Graph) (nodeIds : List String) : Graph :=
  if nodeIds.isEmpty then ⟨[], []⟩
  else
    get_subgraph g
      ((intersectAll (nodeIds.map (fun i => pyTraverse g [i] false))).filter
        (fun a => a ∉ nodeIds))

/-- `find_common_downstream(node_ids)`: symmetric, with forward reachability. -/
def find_common_downstream (g : Graph) (nodeIds : List String) : Graph :=
  if nodeIds.isEmpty then ⟨[], []⟩
  else
    get_subgraph g
      ((intersectAll (nodeIds.map (fun i => pyTraverse g [i] true))).filter
        (fun a => a ∉ nodeIds))

/-! ## `find_paths`: BFS shortest path -/

/-- The body of `find_paths`' BFS inner loop: for each neighbour of the popped
node, if unvisited, mark visited and append `(neighbor, path + [neighbor])` to
the queue, sequentially left to right. -/
def enqueue (path : List String) (vis : List String)
    (q : List (String × List String)) (nbrs : List String) :
    List String × List (String × List String) :=
  nbrs.foldl
    (fun vq nb =>
      if nb ∈ vq.1 then vq else (vq.1 ++ [nb], vq.2 ++ [(nb, path ++ [nb])]))
    (vis, q)

/-- The BFS loop of `find_paths`: pop `(current_node, path)`; if it is the end
node, return the path, else enqueue the unvisited neighbours.  Fuel as in
`traverseLoop`; `find_paths_spec` proves the fuel below never runs out. -/
def bfsLoop (g : Graph) (target : String) :
    Nat → List (String × List String) → List String → Option (List String)
  | 0, _, _ => none
  | _ + 1, [], _ => none
  | f + 1, (cur, path) :: rest, vis =>
    if cur = target then some path
    else
      bfsLoop g target f (enqueue path vis rest (adjGet g cur)).2
        (enqueue path vis rest (adjGet g cur)).1

/-- `find_paths(start_node_id, end_node_id)`:
`[]` unless both ids are keys of `self._adj`; otherwise BFS from
`(start, [start])` with `visited = {start}`; a found path is resolved through
`self._nodes_by_id.get`, keeping only resolvable ids
(`[... for node_id in path if self._nodes_by_id.get(node_id)]`). -/
def find_paths (g : Graph) (s t : String) : List (List Node) :=
  if isNodeId g s && isNodeId g t then
    match bfsLoop g t (g.edges.length + 2) [(s, [s])] [s] with
    | some path => [path.filterMap (fun i => nodesById g i)]
    | none => []
  else []

/-- A path in the graph as the code's BFS walks it: nonempty, from `s` to `t`,
each step moving along the forward adjacency (`adjGet`). -/
def IsPath (g : Graph) (s t : String) (p : List String) : Prop :=
  p.head? = some s ∧ p.getLast? = some t ∧
    List.Chain' (fun a b => b ∈ adjGet g a) p

/-- `t` is reachable from `s` along forward adjacency. -/
def Reachable (g : Graph) (s t : String) : Prop :=
  ∃ p, IsPath g s t p

/-! ### Proof-layer notions for the BFS verification -/

/-- The neighbours the inner loop actually admits: those not yet visited,
first occurrence only (the loop marks each one visited before testing the
next).  `enqueue path vis q nbrs` appends exactly these to `vis` and to the
queue (`enqueue_eq` below). -/
def newOnes (vis : List String) : List String → List String
  | [] => []
  | nb :: rest => if nb ∈ vis then newOnes vis rest else nb :: newOnes (vis ++ [nb]) rest

/-- The set of all edge targets: every id the BFS can newly visit. -/
def targetsOf (g : Graph) : Finset String :=
  (g.edges.map (fun e => e.target)).toFinset

/-- Termination potential of a BFS state: queue length plus the number of
still-unvisited potential targets.  Each loop iteration decreases it by
exactly one, so fuel exceeding the initial potential never runs out. -/
def phi (g : Graph) (q : List (String × List String)) (vis : List String) : Nat :=
  q.length + (targetsOf g \ vis.toFinset).card

/-- The BFS loop invariant relating the queue and the visited set:

* each queue entry carries a path from `s` to its node of minimal length;
* every entry's node is visited, and so is `s`;
* entry path lengths are non-decreasing along the queue and span at most two
  consecutive levels;
* any path to an unvisited node is strictly longer than the head entry's path;
* a visited node with no queue entry has been expanded: its neighbours are
  visited;
* once the end node is visited it still has a queue entry (it is never
  silently expanded — popping it returns). -/
structure BfsInv (g : Graph) (s t : String)
    (q : List (String × List String)) (vis : List String) : Prop where
  entries_path : ∀ e ∈ q, IsPath g s e.1 e.2
  entries_min : ∀ e ∈ q, ∀ p, IsPath g s e.1 p → e.2.length ≤ p.length
  entries_vis : ∀ e ∈ q, e.1 ∈ vis
  start_vis : s ∈ vis
  levels : List.Pairwise
    (fun a b => a.2.length ≤ b.2.length ∧ b.2.length ≤ a.2.length + 1) q
  frontier : ∀ e₀, q.head? = some e₀ → ∀ v p, IsPath g s v p → v ∉ vis →
    e₀.2.length + 1 ≤ p.length
  closure : ∀ v ∈ vis, (∀ e ∈ q, e.1 ≠ v) → ∀ nb ∈ adjGet g v, nb ∈ vis
  target_mem : t ∈ vis → ∃ e ∈ q, e.1 = t

end NavViz

namespace Dispatcher

/-- `str(value)` for the optional `request.get("type")` value:
`None` prints as `"None"`. -/
def pyStr : Option String → String
  | none => "None"
  | some s => s

/-- Outbound envelopes (`self._hub.send({...})` calls in `AppController`).
`δ` stands for the opaque JSON payloads (`data`, `params`, progress dicts) that
the dispatcher forwards but never inspects.  The `reflect-extension` variant
additionally attaches a `traceback` string to the two error envelopes; no claim
inspects it, so it is omitted. -/
inductive Envelope (δ : Type) where
  | rpcSuccess (reqId : String) (data : δ)
  | rpcError (reqId : String) (message : String)
  | jobStarted (reqId : String) (jobId : String)
  | jobProgress (jobId : String) (progress : δ)
  | jobSuccess (jobId : String) (data : δ)
  | jobError (jobId : String) (message : String)
deriving DecidableEq

/-- An inbound request dict.  Each field models `request.get(...)` /
`request["..."]` access: `none` means the key is absent. -/
structure Request (δ : Type) where
  type : Option String
  method : Option String
  channel : Option String
  reqId : Option String
  sessionId : Option String
  params : Option δ
  payload : Option δ
deriving DecidableEq

/-- An RPC handler's `execute(payload)`: returns a result or raises
(`Except.error` carries `str(e)`). -/
def RpcHandler (δ : Type) : Type := Option δ → Except String δ

/-- A job handler's observable behaviour when `run(params, context)` is called
on the worker thread: the sequence of progress payloads it passes to
`context.report_progress`, in order, followed by a normal return (`Except.ok`)
or a raise (`Except.error` carrying `str(e)`). -/
def JobHandler (δ : Type) : Type := Option δ → List δ × Except String δ

/-- A session handler: `on_connect(session_id, payload)` and
`on_disconnect(session_id)`, each of which may raise. -/
def SessionHandler (δ : Type) : Type :=
  (String → Option δ → Except String Unit) × (String → Except String Unit)

/-- The three handler registries of `AppController.__init__`
(`self._rpc`, `self._jobs`, `self._sessions`), as lookup functions
(`.get(method)` on the dicts keyed by `command_type`). -/
structure Controller (δ : Type) where
  rpc : String → Option (RpcHandler δ)
  jobs : String → Option (JobHandler δ)
  sessions : String → Option (SessionHandler δ)

/-- `handlers = {h.command_type: h for h in handler_list}` then `.get`:
dict comprehension, a later handler with the same command type wins. -/
def registryOf {α : Type} (handlers : List (String × α)) : String → Option α :=
  fun k => handlers.foldl (fun acc h => if h.1 == k then some h.2 else acc) none

/-- `request["key"]`: the value, or a raised `KeyError` whose `str` is the
quoted key name. -/
def keyGet {α : Type} (o : Option α) (key : String) : Except String α :=
  match o with
  | some v => Except.ok v
  | none => Except.error (NavViz.sq ++ key ++ NavViz.sq)

/-- `str(ValueError(f"No RPC handler for '{method}'"))`. -/
def noRpcHandlerMsg (m : String) : String :=
  "No RPC handler for " ++ NavViz.sq ++ m ++ NavViz.sq

/-- `str(ValueError(f"No Job handler for '{method}'"))`. -/
def noJobHandlerMsg (m : String) : String :=
  "No Job handler for " ++ NavViz.sq ++ m ++ NavViz.sq

/-- `AppController._handle_rpc`: look up `request["method"]` in the RPC
registry (raise if missing), call `handler.execute(request.get("params"))` on
the calling thread, then send `RPC_SUCCESS{reqId: request["reqId"], data}`.
The result is the envelopes sent inside the `try` body, or the exception. -/
def handleRpcE {δ : Type} (c : Controller δ) (req : Request δ) :
    Except String (List (Envelope δ)) :=
  match keyGet req.method "method" with
  | Except.error e => Except.error e
  | Except.ok m =>
    match c.rpc m with
    | none => Except.error (noRpcHandlerMsg m)
    | some h =>
      match h req.params with
      | Except.error e => Except.error e
      | Except.ok d =>
        match keyGet req.reqId "reqId" with
        | Except.error e => Except.error e
        | Except.ok r => Except.ok [Envelope.rpcSuccess r d]

/-- The terminal envelope `job_runner` sends: `JOB_SUCCESS{jobId, data}` when
`handler.run` returns, `JOB_ERROR{jobId, message}` when it raises. -/
def terminalEnvelope {δ : Type} (jobId : String) : Except String δ → Envelope δ
  | Except.ok d => Envelope.jobSuccess jobId d
  | Except.error e => Envelope.jobError jobId e

/-- `AppController._handle_job_start`.  First component: the envelope sequence
the spawned worker thread (`job_runner` plus the `JobContext.report_progress`
calls) will send — `none` when no thread is spawned (missing method / handler:
the exception is raised before `thread.start()`).  Second component: the main
thread's envelopes, or the exception `dispatch` will catch.  NOTE the source
order: `thread.start()` runs BEFORE `request["reqId"]` is read and before
`JOB_STARTED` is sent, so the worker trace exists even when the `reqId` lookup
raises, and its envelopes are not ordered after `JOB_STARTED`.  `jobId` stands
for the fresh `f"job-{uuid.uuid4()}"`. -/
def handleJobStartE {δ : Type} (c : Controller δ) (req : Request δ) (jobId : String) :
    Option (List (Envelope δ)) × Except String (List (Envelope δ)) :=
  match keyGet req.method "method" with
  | Except.error e => (none, Except.error e)
  | Except.ok m =>
    match c.jobs m with
    | none => (none, Except.error (noJobHandlerMsg m))
    | some h =>
      let run := h req.params
      let worker := run.1.map (Envelope.jobProgress jobId) ++ [terminalEnvelope jobId run.2]
      match keyGet req.reqId "reqId" with
      | Except.error e => (some worker, Except.error e)
      | Except.ok r => (some worker, Except.ok [Envelope.jobStarted r jobId])

/-- `AppController._handle_session_connect`: look up `request["channel"]`;
a missing handler is silently ignored; a found handler gets
`on_connect(request["sessionId"], request.get("payload"))`.  No envelopes. -/
def handleSessionConnectE {δ : Type} (c : Controller δ) (req : Request δ) :
    Except String (List (Envelope δ)) :=
  match keyGet req.channel "channel" with
  | Except.error e => Except.error e
  | Except.ok ch =>
    match c.sessions ch with
    | none => Except.ok []
    | some h =>
      match keyGet req.sessionId "sessionId" with
      | Except.error e => Except.error e
      | Except.ok sid =>
        match h.1 sid req.payload with
        | Except.error e => Except.error e
        | Except.ok _ => Except.ok []

/-- `AppController._handle_session_disconnect`, symmetric. -/
def handleSessionDisconnectE {δ : Type} (c : Controller δ) (req : Request δ) :
    Except String (List (Envelope δ)) :=
  match keyGet req.channel "channel" with
  | Except.error e => Except.error e
  | Except.ok ch =>
    match c.sessions ch with
    | none => Except.ok []
    | some h =>
      match keyGet req.sessionId "sessionId" with
      | Except.error e => Except.error e
      | Except.ok sid =>
        match h.2 sid with
        | Except.error e => Except.error e
        | Except.ok _ => Except.ok []

/-- What one `dispatch(request)` call makes the hub send: `main` in program
order on the dispatching thread, `worker` in program order on the spawned job
thread (`[]` if no thread was spawned). -/
structure DispatchResult (δ : Type) where
  main : List (Envelope δ)
  worker : List (Envelope δ)
deriving DecidableEq

/-- The `try`/`except` frame of `AppController.dispatch`: combine the chosen
branch's outcome (worker trace, and main-thread envelopes or exception) into
the observable result — an exception is answered with
`RPC_ERROR{reqId, message}` if `request.get("reqId")` is truthy (`if req_id:`
— an absent key or an empty string suppresses the reply), else swallowed
(only printed via `traceback.print_exc()`). -/
def dispatchAssemble {δ : Type} (reqId : Option String)
    (branch : Option (List (Envelope δ)) × Except String (List (Envelope δ))) :
    DispatchResult δ :=
  match branch.2 with
  | Except.ok evs => ⟨evs, branch.1.getD []⟩
  | Except.error e =>
    match reqId with
    | some r =>
      ⟨if r.isEmpty then [] else [Envelope.rpcError r e], branch.1.getD []⟩
    | none => ⟨[], branch.1.getD []⟩

/-- `AppController.dispatch`: branch on `request.get("type")` (the `elif`
chain), raising `ValueError(f"Unknown message type: {msg_type}")` on a
fall-through, inside the `try`/`except` frame. -/
def dispatch {δ : Type} (c : Controller δ) (req : Request δ) (jobId : String) :
    DispatchResult δ :=
  dispatchAssemble req.reqId
    (if req.type = some "RPC" then (none, handleRpcE c req)
    else if req.type = some "JOB_START" then handleJobStartE c req jobId
    else if req.type = some "SESSION_CONNECT" then (none, handleSessionConnectE c req)
    else if req.type = some "SESSION_DISCONNECT" then (none, handleSessionDisconnectE c req)
    else (none, Except.error ("Unknown message type: " ++ pyStr req.type)))

/-- All interleavings of two lists that preserve the order within each list:
the possible orders in which the hub can receive the main thread's and the
worker thread's sends. -/
def interleavings {α : Type} : List α → List α → List (List α)
  | [], ys => [ys]
  | x :: xs, [] => [x :: xs]
  | x :: xs, y :: ys =>
    (interleavings xs (y :: ys)).map (fun t => x :: t) ++
      (interleavings (x :: xs) ys).map (fun t => y :: t)
termination_by xs ys => xs.length + ys.length

/-- The envelope sequences an observer of the hub can see for one dispatch:
`thread.start()` precedes the main thread's `JOB_STARTED` send, and nothing
synchronises the two threads afterwards, so any order-preserving interleaving
of the two send sequences can occur. -/
def traces {δ : Type} (d : DispatchResult δ) : List (List (Envelope δ)) :=
  interleavings d.main d.worker

end Dispatcher

namespace Hub

/-- `MendixMessageHub.send`:
`self._post_message("backend:response", json.dumps(message))` — a single
direct call, with NO `try`/`except` anywhere in the class.  `postMessageFunc`
is the injected transport (`PostMessage`), which may raise; `dumps` models
`json.dumps`. -/
def send {μ : Type} (postMessageFunc : String → String → Except String Unit)
    (dumps : μ → String) (message : μ) : Except String Unit :=
  postMessageFunc "backend:response" (dumps message)

end Hub

namespace NavViz

/-! ## `_build_graph_if_needed`: the graph builder

The host model (pages, microflows, navigation documents) is the external
collaborator; we embed exactly what the builder reads from it.  Every
`Option String` field below models the result of `_get_property_value`, which
returns `p.Value if p and p.Value else None` — i.e. the value is already
truthiness-normalised: `none` means the property is absent or its value falsy.
An `Option` of a nested object models the object property itself; a `none`
receiver makes the next `_get_property_value` call raise an `AttributeError`
(`None.GetProperty`), which we model as `Except.error "AttributeError"`. -/

/-- A `Pages$MicroflowSource` element: `microflowSettings` property, whose
value (when present) carries its own `microflow` property. -/
structure PageSource where
  microflowSettings : Option (Option String)
deriving DecidableEq

/-- A `Microflows$MicroflowCall` element with its `microflow` property. -/
structure MicroflowCallEl where
  microflow : Option String
deriving DecidableEq

/-- The value of an `ActionActivity`'s `action` property: its `.Type` and its
`pageSettings` property, whose value (when present) carries a `page` property. -/
structure ActionObj where
  type : String
  pageSettings : Option (Option String)
deriving DecidableEq

/-- A `Microflows$ActionActivity` element with its `action` property. -/
structure ActionActivity where
  action : Option ActionObj
deriving DecidableEq

/-- A `Pages$Page` unit: its qualified name and its `Pages$MicroflowSource`
elements, in `GetElementsOfType` order. -/
structure PageUnit where
  qualifiedName : String
  microflowSources : List PageSource
deriving DecidableEq

/-- A `Microflows$Microflow` unit: its qualified name, its
`Microflows$MicroflowCall` elements and its `Microflows$ActionActivity`
elements, in `GetElementsOfType` order. -/
structure MicroflowUnit where
  qualifiedName : String
  microflowCalls : List MicroflowCallEl
  actionActivities : List ActionActivity
deriving DecidableEq

/-- A `Navigation$NavigationProfile`: its `.Name` and its `homePage` property,
whose value (when present) carries a `page` property. -/
structure NavProfile where
  name : String
  homePage : Option (Option String)
deriving DecidableEq

/-- A `Navigation$NavigationDocument` with its profiles. -/
structure NavDoc where
  profiles : List NavProfile
deriving DecidableEq

/-- What `_build_graph_if_needed` reads from the Mendix model root:
navigation documents, and the pages/microflows of all modules (flattened in
module order, as the two lookup dict comprehensions do). -/
structure HostModel where
  navDocs : List NavDoc
  pages : List PageUnit
  microflows : List MicroflowUnit
deriving DecidableEq

/-- `page_lookup = {p.QualifiedName: p for m in modules for p in pages}`:
last write wins. -/
def pageLookup (m : HostModel) (q : String) : Option PageUnit :=
  m.pages.foldl (fun acc p => if p.qualifiedName == q then some p else acc) none

/-- `microflow_lookup`, same shape. -/
def microflowLookup (m : HostModel) (q : String) : Option MicroflowUnit :=
  m.microflows.foldl (fun acc u => if u.qualifiedName == q then some u else acc) none

/-- The page branch of `_get_references_from_unit`: for each
`Pages$MicroflowSource`, if its `microflowSettings` is truthy, append
`(microflowSettings.microflow, "CALLS")` — note the inner `microflow` value is
appended even when it is `None`. -/
def pageRawRefs (u : PageUnit) : List (Option String × String) :=
  u.microflowSources.filterMap
    (fun s => s.microflowSettings.map (fun mf => (mf, "CALLS")))

/-- The microflow branch of `_get_references_from_unit`: first every truthy
`MicroflowCall.microflow` as a `CALLS` ref, then for each `ActionActivity`
whose truthy `action` has `Type == 'Microflows$ShowPageAction'`, the page of
its `pageSettings` as a `SHOWS` ref.  A `ShowPageAction` with no `pageSettings`
raises `AttributeError` (`_get_property_value(None, 'page')`). -/
def microflowRawRefs (u : MicroflowUnit) : Except String (List (Option String × String)) :=
  let callRefs : List (Option String × String) :=
    u.microflowCalls.filterMap
      (fun c => c.microflow.map (fun mf => ((some mf : Option String), "CALLS")))
  let showRefs : Except String (List (Option String × String)) :=
    u.actionActivities.foldlM
      (fun acc a =>
        match a.action with
        | none => Except.ok acc
        | some act =>
          if act.type == "Microflows$ShowPageAction" then
            match act.pageSettings with
            | none => Except.error "AttributeError"
            | some pg =>
              match pg with
              | some p => Except.ok (acc ++ [((some p : Option String), "SHOWS")])
              | none => Except.ok acc
          else Except.ok acc)
      []
  showRefs.map (fun sr => callRefs ++ sr)

/-- `list(set(refs))`.  A Python set iterates in an unspecified order; we fix
the first-occurrence order.  The properties proved about it (duplicate
freedom, membership) hold for every order. -/
def pyDedup {α : Type} [DecidableEq α] (l : List α) : List α :=
  l.foldl (fun acc a => if a ∈ acc then acc else acc ++ [a]) []

/-- `q_name.split('.')` on the character list: splitting on `.` (code 46)
always yields at least one (possibly empty) group, like Python's `str.split`
with an explicit separator. -/
def splitDotAux : List Char → List (List Char)
  | [] => [[]]
  | c :: rest =>
    match splitDotAux rest with
    | [] => [[]]
    | g :: gs => if c = Char.ofNat 46 then [] :: g :: gs else (c :: g) :: gs

/-- `q_name.split('.')`. -/
def splitOnDot (s : String) : List String :=
  (splitDotAux s.data).map (fun cs => String.mk cs)

/-- `_get_or_create_node`'s node value: `type_override or "UNKNOWN"`, refined
to `PAGE`/`MICROFLOW` by the lookups when no override is given; `name` defaults
to the last dot-separated part (`parts[-1]`), `module` is the first
(`parts[0]`). -/
def mkNode (m : HostModel) (qName : String) (typeOverride : Option String)
    (name : Option String) : Node :=
  let parts := splitOnDot qName
  let ty :=
    match typeOverride with
    | some ty => ty
    | none =>
      if (pageLookup m qName).isSome then "PAGE"
      else if (microflowLookup m qName).isSome then "MICROFLOW"
      else "UNKNOWN"
  ⟨qName, ty, name.getD (parts.getLastD ""), parts.headD ""⟩

/-- `_get_or_create_node(q_name, ...)`: no-op when `q_name` is falsy or already
a key of `nodes_map`; otherwise insert (first write wins, insertion order
preserved — `nodes_map` is a Python dict). -/
def getOrCreateNode (m : HostModel) (nodes : List Node) (qName : String)
    (typeOverride : Option String) (name : Option String) : List Node :=
  if qName.isEmpty || nodes.any (fun n => n.id == qName) then nodes
  else nodes ++ [mkNode m qName typeOverride name]

/-- `_add_edge(source, target, type)`: append when both endpoints are truthy.
No deduplication. -/
def addEdge (edges : List Edge) (source target ty : String) : List Edge :=
  if !source.isEmpty && !target.isEmpty then edges ++ [⟨source, target, ty⟩]
  else edges

/-- The builder's mutable state: `nodes_map` (as its insertion-ordered value
list), `edges_list`, the still-unprocessed tail of `queue`, and
`processed_items`. -/
structure BuildState where
  nodes : List Node
  edges : List Edge
  queue : List String
  processed : List String
deriving DecidableEq

/-- The per-profile body of the seeding loop: read
`profile.homePage` (an absent `homePage` raises at
`_get_property_value(None, 'page')`), and for a truthy home page name create
the synthetic navigation node, the page node, the `SHOWS` edge, and enqueue the
unprocessed home page. -/
def seedStep (m : HostModel) (st : BuildState) (profile : NavProfile) :
    Except String BuildState :=
  match profile.homePage with
  | none => Except.error "AttributeError"
  | some homePageName? =>
    match homePageName? with
    | none => Except.ok st
    | some homePageName =>
      let navId := "Navigation." ++ profile.name
      let nodes := getOrCreateNode m st.nodes navId (some "NAVIGATION_ITEM")
        (some ("Home Page (" ++ profile.name ++ ")"))
      let nodes := getOrCreateNode m nodes homePageName (some "PAGE") none
      let edges := addEdge st.edges navId homePageName "SHOWS"
      if homePageName ∈ st.processed then Except.ok ⟨nodes, edges, st.queue, st.processed⟩
      else Except.ok ⟨nodes, edges, st.queue ++ [homePageName], st.processed ++ [homePageName]⟩

/-- The seeding phase: both nested `for` loops over
`GetUnitsOfType('Navigation$NavigationDocument')` and their profiles. -/
def seed (m : HostModel) : Except String BuildState :=
  (m.navDocs.flatMap (fun d => d.profiles)).foldlM (seedStep m) ⟨[], [], [], []⟩

/-- `references = _get_references_from_unit(unit, is_page)` for the popped id:
`unit = page_lookup.get(id) or microflow_lookup.get(id)`; a missing unit means
`continue` (no refs).  `is_page` is `current_id in page_lookup`, consistent
with the `or` because a page hit takes priority in both. -/
def unitRefs (m : HostModel) (currentId : String) :
    Except String (List (Option String × String)) :=
  match pageLookup m currentId with
  | some pu => Except.ok (pyDedup (pageRawRefs pu))
  | none =>
    match microflowLookup m currentId with
    | some mu => (microflowRawRefs mu).map pyDedup
    | none => Except.ok []

/-- The per-reference body of the traversal loop: skip falsy `ref_id`, else
create its node, add the edge from the current id, and enqueue it if
unprocessed. -/
def processRef (m : HostModel) (currentId : String) (st : BuildState)
    (r : Option String × String) : BuildState :=
  match r.1 with
  | none => st
  | some refId =>
    let nodes := getOrCreateNode m st.nodes refId none none
    let edges := addEdge st.edges currentId refId r.2
    if refId ∈ st.processed then ⟨nodes, edges, st.queue, st.processed⟩
    else ⟨nodes, edges, st.queue ++ [refId], st.processed ++ [refId]⟩

/-- The traversal loop `while head < len(queue)`, with fuel.  Each iteration
pops one id; ids enter the queue at most once each (guarded by
`processed_items`), and only seed home pages or extracted refs ever enter, so
`buildFuel` below strictly exceeds the possible number of iterations. -/
def buildLoop (m : HostModel) : Nat → BuildState → Except String BuildState
  | 0, st => Except.ok st
  | f + 1, st =>
    match st.queue with
    | [] => Except.ok st
    | currentId :: rest =>
      match unitRefs m currentId with
      | Except.error e => Except.error e
      | Except.ok refs =>
        buildLoop m f (refs.foldl (processRef m currentId) ⟨st.nodes, st.edges, rest, st.processed⟩)

/-- Fuel exceeding every possible queue length: one slot per navigation
profile plus one per reference-bearing element of every unit, plus slack. -/
def buildFuel (m : HostModel) : Nat :=
  2 + (m.navDocs.flatMap (fun d => d.profiles)).length
    + m.pages.foldl (fun a p => a + 1 + p.microflowSources.length) 0
    + m.microflows.foldl
        (fun a u => a + 1 + u.microflowCalls.length + u.actionActivities.length) 0

/-- `_build_graph_if_needed` end to end: seed from navigation, run the
traversal, and cache `{"nodes": list(nodes_map.values()), "edges": edges_list}`. -/
def buildGraph (m : HostModel) : Except String Graph :=
  match seed m with
  | Except.error e => Except.error e
  | Except.ok st0 =>
    match buildLoop m (buildFuel m) st0 with
    | Except.error e => Except.error e
    | Except.ok st1 => Except.ok ⟨st1.nodes, st1.edges⟩

end NavViz

namespace Examples

open NavViz Dispatcher

/-- A two-node graph with a `CALLS` edge `a → b`, for path witnesses. -/
def nodeA : Node := ⟨"a", "PAGE", "a", "a"⟩

def nodeB : Node := ⟨"b", "MICROFLOW", "b", "b"⟩

def gW : Graph := ⟨[nodeA, nodeB], [⟨"a", "b", "CALLS"⟩]⟩

/-- A graph with a self-loop on `a` (a cycle making `a` its own ancestor) and
an edge `b → a`, for the upstream-exclusion witness. -/
def gCW : Graph := ⟨[nodeA, nodeB], [⟨"b", "a", "CALLS"⟩, ⟨"a", "a", "CALLS"⟩]⟩

/-- A job handler that reports one progress payload and then succeeds. -/
def demoJob : JobHandler String := fun _ => (["progress-1"], Except.ok "done")

/-- A controller with only `demoJob` registered, under method name `work`. -/
def cJob : Controller String :=
  ⟨fun _ => none, registryOf [("work", demoJob)], fun _ => none⟩

/-- A controller with no handlers at all. -/
def cNone : Controller String :=
  ⟨fun _ => none, fun _ => none, fun _ => none⟩

/-- A `JOB_START` request for method `work` with `reqId` `r1`. -/
def reqJob : Request String :=
  ⟨some "JOB_START", some "work", none, some "r1", none, none, none⟩

/-- A request with the unrecognised type `BOGUS` and `reqId` `x`. -/
def reqBogus : Request String :=
  ⟨some "BOGUS", none, none, some "x", none, none, none⟩

/-- An RPC request for the unregistered method `nonexistent` with `reqId` `x`. -/
def reqRpc : Request String :=
  ⟨some "RPC", some "nonexistent", none, some "x", none, none, none⟩

/-- A host model whose single navigation document has two profiles with the
same name and the same home page — each seeds the identical `SHOWS` edge. -/
def cexHost : HostModel :=
  ⟨[⟨[⟨"Responsive", some (some "MyModule.Home")⟩,
      ⟨"Responsive", some (some "MyModule.Home")⟩]⟩], [], []⟩

/-- The graph `_build_graph_if_needed` produces from `cexHost`: the edge list
contains the same `SHOWS` edge twice. -/
def cexGraph : Graph :=
  ⟨[⟨"Navigation.Responsive", "NAVIGATION_ITEM", "Home Page (Responsive)", "Navigation"⟩,
    ⟨"MyModule.Home", "PAGE", "Home", "MyModule"⟩],
   [⟨"Navigation.Responsive", "MyModule.Home", "SHOWS"⟩,
    ⟨"Navigation.Responsive", "MyModule.Home", "SHOWS"⟩]⟩

/-- A microflow unit calling the same microflow twice AND opening a page with
the same qualified name, for the per-unit deduplication witness: the raw
reference list is `[(M.Target, CALLS), (M.Target, CALLS), (M.Target, SHOWS)]`
— the duplicate `CALLS` pair is collapsed while the same-target `SHOWS`
reference (a different type) is retained. -/
def dupMicroflow : MicroflowUnit :=
  ⟨"M.Dup",
   [⟨some "M.Target"⟩, ⟨some "M.Target"⟩],
   [⟨some ⟨"Microflows$ShowPageAction", some (some "M.Target")⟩⟩]⟩

/-- A host model containing only `dupMicroflow`. -/
def dupHost : HostModel := ⟨[], [], [dupMicroflow]⟩

/-- An envelope order the scheduler can produce for `reqJob`: the worker's
`JOB_PROGRESS` arrives before the main thread's `JOB_STARTED`. -/
def badTrace : List (Envelope String) :=
  [Envelope.jobProgress "job-1" "progress-1",
   Envelope.jobStarted "r1" "job-1",
   Envelope.jobSuccess "job-1" "done"]

end Examples

/-! # Theorems -/

namespace NavViz

/-- Folding the `nodes_by_id` dict lookup: the lookup hits iff some node has
the id (or the accumulator already held a hit). -/
theorem nodesById_foldl_isSome (l : List Node) (x : String) (init : Option Node) :
    (l.foldl (fun acc n => if n.id == x then some n else acc) init).isSome
      = (init.isSome || l.any (fun n => n.id == x)) := by
  induction l generalizing init with
  | nil => simp
  | cons n l ih =>
    rw [List.foldl_cons, List.any_cons, ih]
    by_cases h : n.id == x
    · simp [h]
    · simp [h]

/-- `nodes_by_id.get(x)` hits exactly when `x` is a node id. -/
theorem nodesById_isSome (g : Graph) (x : String) :
    (nodesById g x).isSome = isNodeId g x := by
  rw [nodesById, isNodeId, nodesById_foldl_isSome]
  simp

/-- The per-set lower bound of `set.intersection(*sets)`. -/
theorem foldl_inter_subset (rest : List (List String)) (s : List String) :
    (∀ x ∈ rest.foldl (fun a b => a.filter (fun y => y ∈ b)) s, x ∈ s) ∧
      ∀ u ∈ rest, ∀ x ∈ rest.foldl (fun a b => a.filter (fun y => y ∈ b)) s, x ∈ u := by
  induction rest generalizing s with
  | nil => exact ⟨fun x hx => hx, by simp⟩
  | cons u rest ih =>
    obtain ⟨h1, h2⟩ := ih (s.filter (fun y => y ∈ u))
    refine ⟨fun x hx => (List.mem_filter.mp (h1 x hx)).1, ?_⟩
    intro v hv x hx
    rcases List.mem_cons.mp hv with h | h
    · subst h
      exact of_decide_eq_true (List.mem_filter.mp (h1 x hx)).2
    · exact h2 v h x hx

/-- The intersection is contained in every member set. -/
theorem intersectAll_subset {sets : List (List String)} {s : List String}
    (hs : s ∈ sets) : ∀ x ∈ intersectAll sets, x ∈ s := by
  match sets, hs with
  | t :: rest, hs =>
    rcases List.mem_cons.mp hs with h | h
    · exact h ▸ (foldl_inter_subset rest t).1
    · exact (foldl_inter_subset rest t).2 s h

/-- `_traverse` from a single id that is not a graph node visits only that id:
its adjacency entry is the `.get` default `[]`. -/
theorem traverseFrom_not_node (g : Graph) (fwd : Bool) (x : String)
    (hx : isNodeId g x = false) : traverseFrom g fwd x = [x] := by
  have hstep : (if fwd then adjGet g x else revAdjGet g x) = [] := by
    cases fwd <;> simp [adjGet, revAdjGet, hx]
  show traverseLoop _ (g.edges.length + 1 + 1) [x] [x] = [x]
  rw [traverseLoop]
  simp only [hstep, List.foldl_nil]
  rw [traverseLoop]

/-- The induced subgraph over no ids is the empty graph. -/
theorem get_subgraph_nil (g : Graph) : get_subgraph g [] = ⟨[], []⟩ := by
  simp [get_subgraph]

end NavViz


namespace NavViz

/-- Membership in the induced subgraph's node list. -/
theorem mem_subgraph_nodes (g : Graph) (S : List String) (n : Node) :
    n ∈ (get_subgraph g S).nodes ↔ n ∈ g.nodes ∧ n.id ∈ S := by
  simp [get_subgraph]

/-- Membership in the induced subgraph's edge list. -/
theorem mem_subgraph_edges (g : Graph) (S : List String) (e : Edge) :
    e ∈ (get_subgraph g S).edges ↔ e ∈ g.edges ∧ e.source ∈ S ∧ e.target ∈ S := by
  simp [get_subgraph]

/-- With a missing id among the seeds, the intersected reachable sets minus
the seeds are empty (shared by the upstream and downstream directions). -/
theorem intersect_minus_seeds_empty (g : Graph) (nodeIds : List String)
    (x : String) (fwd : Bool) (hx : x ∈ nodeIds) (hnode : isNodeId g x = false) :
    (intersectAll (nodeIds.map (fun i => pyTraverse g [i] fwd))).filter
      (fun a => a ∉ nodeIds) = [] := by
  have hmem : pyTraverse g [x] fwd ∈ nodeIds.map (fun i => pyTraverse g [i] fwd) :=
    List.mem_map.mpr ⟨x, hx, rfl⟩
  have hsingle : pyTraverse g [x] fwd = [x] := by
    simp [pyTraverse, setUnion, setInsert, traverseFrom_not_node g fwd x hnode]
  rw [List.filter_eq_nil_iff]
  intro a ha
  have h1 : a ∈ pyTraverse g [x] fwd := intersectAll_subset hmem a ha
  rw [hsingle, List.mem_singleton] at h1
  subst h1
  simp [hx]

end NavViz

open NavViz in
/-- C2: for every set `S` of node ids, `getSubgraph(S)` keeps exactly the
cached nodes whose id is in `S` and exactly the cached edges with both
endpoints in `S`; edges with one endpoint outside `S` are dropped. -/
theorem C2_subgraph_correct : ∀ (g : Graph) (S : List String),
    (∀ n, n ∈ (get_subgraph g S).nodes ↔ n ∈ g.nodes ∧ n.id ∈ S) ∧
    (∀ e, e ∈ (get_subgraph g S).edges ↔
      e ∈ g.edges ∧ e.source ∈ S ∧ e.target ∈ S) :=
  fun g S => ⟨mem_subgraph_nodes g S, mem_subgraph_edges g S⟩

open NavViz in
/-- C4: `findCommonUpstream(nodeIds)` never returns a node whose id is in
`nodeIds` (the subtraction `common_ancestors_ids - set(node_ids)` happens
after the intersection, so it also removes a node that a cycle makes its own
ancestor), and the empty input yields the empty graph. -/
theorem C4_upstream_excludes_inputs : ∀ (g : Graph) (nodeIds : List String),
    (∀ n ∈ (find_common_upstream g nodeIds).nodes, n.id ∉ nodeIds) ∧
      find_common_upstream g [] = ⟨[], []⟩ := by
  intro g nodeIds
  constructor
  · intro n hn hmem
    by_cases hempty : nodeIds.isEmpty
    · rw [find_common_upstream, if_pos hempty] at hn
      simp at hn
    · rw [find_common_upstream, if_neg hempty] at hn
      have h2 := ((mem_subgraph_nodes g _ n).mp hn).2
      exact of_decide_eq_true (List.mem_filter.mp h2).2 hmem
  · rw [find_common_upstream, if_pos (by simp)]

open NavViz in
/-- C4 witness: in the graph with edges `b → a` and `a → a` (a cycle making
`a` its own ancestor), the common upstream of `["a"]` contains the node `b`,
whose id is indeed not in `["a"]`. -/
theorem C4_upstream_excludes_inputs_witness :
    Examples.nodeB ∈ (find_common_upstream Examples.gCW ["a"]).nodes ∧
      Examples.nodeB.id ∉ ["a"] :=
  have h : Examples.nodeB ∈ (find_common_upstream Examples.gCW ["a"]).nodes := by decide
  ⟨h, (C4_upstream_excludes_inputs Examples.gCW ["a"]).1 Examples.nodeB h⟩

open NavViz in
/-- C9: when `nodeIds` contains an id absent from the node set, both
`findCommonUpstream` and `findCommonDownstream` return the empty graph: the
traversal from the missing id yields only that id, the intersection is
therefore at most that id, and subtracting `nodeIds` empties it. -/
theorem C9_missing_id_empties_result :
    ∀ (g : Graph) (nodeIds : List String) (x : String),
      x ∈ nodeIds → isNodeId g x = false →
      find_common_upstream g nodeIds = ⟨[], []⟩ ∧
        find_common_downstream g nodeIds = ⟨[], []⟩ := by
  intro g nodeIds x hx hnode
  have hempty : ¬ nodeIds.isEmpty := by
    cases nodeIds with
    | nil => cases hx
    | cons a l => simp
  constructor
  · rw [find_common_upstream, if_neg hempty,
      intersect_minus_seeds_empty g nodeIds x false hx hnode, get_subgraph_nil]
  · rw [find_common_downstream, if_neg hempty,
      intersect_minus_seeds_empty g nodeIds x true hx hnode, get_subgraph_nil]

open NavViz in
/-- C9 witness: `zz` is not a node of the witness graph, and querying
upstream/downstream of `["zz"]` returns the empty graph. -/
theorem C9_missing_id_empties_result_witness :
    find_common_upstream Examples.gCW ["zz"] = ⟨[], []⟩ ∧
      find_common_downstream Examples.gCW ["zz"] = ⟨[], []⟩ :=
  C9_missing_id_empties_result Examples.gCW ["zz"] "zz" (by decide) (by decide)

namespace NavViz

/-- `bfsLoop` returns immediately when the popped head is the end node. -/
theorem bfsLoop_head_target (g : Graph) (t : String) (f : Nat) (path : List String)
    (rest : List (String × List String)) (vis : List String) :
    bfsLoop g t (f + 1) ((t, path) :: rest) vis = some path := by
  rw [bfsLoop, if_pos rfl]

end NavViz

open NavViz in
/-- C10: for a node id `x` present in the graph, `findPaths(x, x)` returns
exactly one path consisting of the single node `x`: the first popped queue
entry `(x, [x])` already equals the end node, before any edge is traversed. -/
theorem C10_self_path : ∀ (g : Graph) (x : String), isNodeId g x = true →
    ∃ n, nodesById g x = some n ∧ find_paths g x x = [[n]] := by
  intro g x hx
  have hsome : (nodesById g x).isSome := by rw [nodesById_isSome, hx]
  obtain ⟨n, hn⟩ := Option.isSome_iff_exists.mp hsome
  refine ⟨n, hn, ?_⟩
  have hb : bfsLoop g x (g.edges.length + 2) [(x, [x])] [x] = some [x] :=
    bfsLoop_head_target g x (g.edges.length + 1) [x] [] [x]
  rw [find_paths, if_pos (by rw [hx]; rfl), hb]
  simp [hn]

open NavViz in
/-- C10 witness: in the witness graph, `findPaths("a", "a")` is the singleton
path `[[a]]`. -/
theorem C10_self_path_witness :
    ∃ n, nodesById Examples.gW "a" = some n ∧
      find_paths Examples.gW "a" "a" = [[n]] :=
  C10_self_path Examples.gW "a" (by decide)

namespace Dispatcher

/-- `dispatchAssemble` on a successful branch. -/
theorem dispatchAssemble_ok {δ : Type} (reqId : Option String)
    (w : Option (List (Envelope δ))) (evs : List (Envelope δ)) :
    dispatchAssemble reqId (w, Except.ok evs) = ⟨evs, w.getD []⟩ := rfl

/-- `dispatchAssemble` on a raising branch. -/
theorem dispatchAssemble_error {δ : Type} (reqId : Option String)
    (w : Option (List (Envelope δ))) (e : String) :
    dispatchAssemble reqId (w, Except.error e) =
      ⟨(match reqId with
        | some r => if r.isEmpty then [] else [Envelope.rpcError r e]
        | none => []), w.getD []⟩ := by
  cases reqId <;> rfl

/-- `_handle_rpc` raises `ValueError(f"No RPC handler for '{method}'")` when
the method has no registered RPC handler. -/
theorem handleRpcE_no_handler {δ : Type} (c : Controller δ) (req : Request δ)
    (m : String) (hm : req.method = some m) (hnone : c.rpc m = none) :
    handleRpcE c req = Except.error (noRpcHandlerMsg m) := by
  simp only [handleRpcE, hm, keyGet, hnone]

/-- `_handle_job_start` with a registered handler and a present `reqId`:
the worker trace is the handler's progress reports followed by its terminal
envelope, and the main thread sends `JOB_STARTED`. -/
theorem handleJobStartE_found {δ : Type} (c : Controller δ) (req : Request δ)
    (jobId m r : String) (h : JobHandler δ) (hm : req.method = some m)
    (hh : c.jobs m = some h) (hr : req.reqId = some r) :
    handleJobStartE c req jobId =
      (some ((h req.params).1.map (Envelope.jobProgress jobId) ++
          [terminalEnvelope jobId (h req.params).2]),
        Except.ok [Envelope.jobStarted r jobId]) := by
  simp only [handleJobStartE, hm, keyGet, hh, hr]

/-- Interleaving a singleton `[x]` into `ys` is exactly inserting `x` at some
split point of `ys`. -/
theorem mem_interleavings_singleton {α : Type} (x : α) (ys t : List α) :
    t ∈ interleavings [x] ys ↔ ∃ l r, ys = l ++ r ∧ t = l ++ x :: r := by
  induction ys generalizing t with
  | nil =>
    rw [interleavings]
    constructor
    · intro h
      rw [List.mem_singleton] at h
      exact ⟨[], [], rfl, h⟩
    · rintro ⟨l, r, h1, h2⟩
      obtain ⟨rfl, rfl⟩ := List.append_eq_nil.mp h1.symm
      simp [h2]
  | cons y ys ih =>
    rw [interleavings]
    simp only [List.mem_append, List.mem_map]
    constructor
    · rintro (⟨u, hu, rfl⟩ | ⟨u, hu, rfl⟩)
      · rw [interleavings, List.mem_singleton] at hu
        subst hu
        exact ⟨[], y :: ys, rfl, rfl⟩
      · obtain ⟨l, r, h1, h2⟩ := (ih u).mp hu
        exact ⟨y :: l, r, by rw [List.cons_append, h1], by rw [List.cons_append, h2]⟩
    · rintro ⟨l, r, h1, h2⟩
      cases l with
      | nil =>
        left
        refine ⟨y :: ys, ?_, ?_⟩
        · rw [interleavings, List.mem_singleton]
        · rw [List.nil_append] at h1 h2
          rw [h2, h1]
      | cons a l =>
        right
        rw [List.cons_append] at h1
        injection h1 with h1a h1b
        subst h1a
        exact ⟨l ++ x :: r, (ih _).mpr ⟨l, r, h1b, rfl⟩, by rw [h2, List.cons_append]⟩

end Dispatcher

open Dispatcher in
/-- C5 counterexample: dispatching `{type: "BOGUS", reqId: "x"}` emits exactly
one `RPC_ERROR`, but its message is `"Unknown message type: BOGUS"` (the
`str` of the raised `ValueError`), not `"No handler for command type: BOGUS"`
as the claim states. -/
theorem C5_counterexample :
    dispatch Examples.cNone Examples.reqBogus "job-1" =
      ⟨[Envelope.rpcError "x" "Unknown message type: BOGUS"], []⟩ ∧
    ("Unknown message type: BOGUS" : String) ≠ "No handler for command type: BOGUS" := by
  constructor
  · decide
  · decide

open Dispatcher in
/-- C5 (amended): for a request whose `type` is absent or not one of the four
recognised values, `dispatch` emits exactly one `RPC_ERROR` carrying the
request's `reqId` and the message `"Unknown message type: <type>"` (where an
absent type prints as `None`) when a `reqId` is present, and emits nothing
when no `reqId` is present; no worker is spawned. -/
theorem C5_amended_unknown_type {δ : Type} (c : Controller δ) (req : Request δ)
    (jobId : String)
    (h : ∀ s, req.type = some s →
      s ∉ (["RPC", "JOB_START", "SESSION_CONNECT", "SESSION_DISCONNECT"] : List String)) :
    dispatch c req jobId =
      ⟨(match req.reqId with
        | some r =>
          if r.isEmpty then []
          else [Envelope.rpcError r ("Unknown message type: " ++ pyStr req.type)]
        | none => []), []⟩ := by
  have h1 : ¬ req.type = some "RPC" := fun he => (h "RPC" he) (by decide)
  have h2 : ¬ req.type = some "JOB_START" := fun he => (h "JOB_START" he) (by decide)
  have h3 : ¬ req.type = some "SESSION_CONNECT" := fun he =>
    (h "SESSION_CONNECT" he) (by decide)
  have h4 : ¬ req.type = some "SESSION_DISCONNECT" := fun he =>
    (h "SESSION_DISCONNECT" he) (by decide)
  rw [dispatch, if_neg h1, if_neg h2, if_neg h3, if_neg h4, dispatchAssemble_error]
  rfl

open Dispatcher in
/-- C5 witness: the amended statement evaluated on the `BOGUS` request. -/
theorem C5_amended_unknown_type_witness :
    dispatch Examples.cNone Examples.reqBogus "job-1" =
      ⟨[Envelope.rpcError "x" "Unknown message type: BOGUS"], []⟩ :=
  (C5_amended_unknown_type Examples.cNone Examples.reqBogus "job-1"
    (fun s hs => by
      have h : some "BOGUS" = some s := hs
      injection h with h
      subst h
      decide)).trans (by decide)

open Dispatcher in
/-- C6: dispatching an RPC request whose method has no registered RPC handler
emits exactly one envelope — an `RPC_ERROR` with the request's own `reqId`
whose message contains the unregistered method name — and nothing else (no
worker thread, no further envelope). -/
theorem C6_unknown_rpc_method {δ : Type} (c : Controller δ) (req : Request δ)
    (jobId m r : String) (ht : req.type = some "RPC") (hm : req.method = some m)
    (hr : req.reqId = some r) (hre : r.isEmpty = false)
    (hnone : c.rpc m = none) :
    dispatch c req jobId = ⟨[Envelope.rpcError r (noRpcHandlerMsg m)], []⟩ ∧
      ∃ pre post, noRpcHandlerMsg m = pre ++ (m ++ post) := by
  constructor
  · rw [dispatch, if_pos ht, handleRpcE_no_handler c req m hm hnone,
      dispatchAssemble_error, hr]
    rw [show (match some r with
      | some r2 =>
        if r2.isEmpty then ([] : List (Envelope δ))
        else [Envelope.rpcError r2 (noRpcHandlerMsg m)]
      | none => []) =
        (if r.isEmpty then ([] : List (Envelope δ))
         else [Envelope.rpcError r (noRpcHandlerMsg m)]) from rfl]
    rw [if_neg (by rw [hre]; exact Bool.false_ne_true)]
    rfl
  · exact ⟨"No RPC handler for " ++ NavViz.sq, NavViz.sq, String.append_assoc _ _ _⟩

open Dispatcher in
/-- C6 witness: the statement evaluated on
`{type: RPC, method: "nonexistent", reqId: "x"}` against an empty registry. -/
theorem C6_unknown_rpc_method_witness :
    dispatch Examples.cNone Examples.reqRpc "job-1" =
      ⟨[Envelope.rpcError "x" (noRpcHandlerMsg "nonexistent")], []⟩ ∧
      ∃ pre post, noRpcHandlerMsg "nonexistent" = pre ++ ("nonexistent" ++ post) :=
  C6_unknown_rpc_method Examples.cNone Examples.reqRpc "job-1" "nonexistent" "x"
    rfl rfl rfl rfl rfl

open Dispatcher in
/-- C7 counterexample: `MendixMessageHub.send` has no exception handling, so a
transport (`PostMessage`) failure propagates to the caller instead of being
swallowed: with a transport raising `"transport failure"`, `send` raises it. -/
theorem C7_counterexample :
    Hub.send (fun _ _ => Except.error "transport failure") (fun _ => "")
        (Envelope.rpcSuccess "r" ("ok" : String)) =
      Except.error "transport failure" ∧
    Hub.send (fun _ _ => Except.error "transport failure") (fun _ => "")
        (Envelope.rpcSuccess "r" ("ok" : String)) ≠ Except.ok () :=
  ⟨rfl, fun h => Except.noConfusion h⟩

/-- C7 (amended): `send` performs no exception handling at all: it succeeds
exactly when the transport delivery of the serialized envelope succeeds, and
when the transport raises, the same exception propagates to the caller. -/
theorem C7_amended_send_propagates {μ : Type}
    (pm : String → String → Except String Unit) (d : μ → String) (msg : μ) :
    (pm "backend:response" (d msg) = Except.ok () → Hub.send pm d msg = Except.ok ()) ∧
    (∀ e, pm "backend:response" (d msg) = Except.error e →
      Hub.send pm d msg = Except.error e) :=
  ⟨fun h => h, fun _ h => h⟩

open Dispatcher in
/-- C7 witness: the amended statement evaluated on a succeeding and on a
failing transport. -/
theorem C7_amended_send_propagates_witness :
    Hub.send (fun _ _ => Except.ok ()) (fun _ => "")
        (Envelope.rpcSuccess "r" ("ok" : String)) = Except.ok () ∧
    Hub.send (fun _ _ => Except.error "down") (fun _ => "")
        (Envelope.rpcSuccess "r" ("ok" : String)) = Except.error "down" :=
  ⟨(C7_amended_send_propagates (fun _ _ => Except.ok ()) (fun _ => "")
      (Envelope.rpcSuccess "r" ("ok" : String))).1 rfl,
    (C7_amended_send_propagates (fun _ _ => Except.error "down") (fun _ => "")
      (Envelope.rpcSuccess "r" ("ok" : String))).2 "down" rfl⟩

open Dispatcher in
/-- C1 counterexample: `_handle_job_start` calls `thread.start()` BEFORE
sending `JOB_STARTED`, so the scheduler may deliver the worker's first
`JOB_PROGRESS` before `JOB_STARTED`: the trace below is admissible for a
dispatched `JOB_START` with a registered handler, and its first envelope is
not the `JOB_STARTED` envelope. -/
theorem C1_counterexample :
    Examples.badTrace ∈ traces (dispatch Examples.cJob Examples.reqJob "job-1") ∧
      Examples.badTrace.head? ≠ some (Envelope.jobStarted "r1" "job-1") := by
  constructor
  · have hd : dispatch Examples.cJob Examples.reqJob "job-1" =
        ⟨[Envelope.jobStarted "r1" "job-1"],
         [Envelope.jobProgress "job-1" "progress-1",
          Envelope.jobSuccess "job-1" "done"]⟩ := by decide
    rw [hd]
    exact (mem_interleavings_singleton _ _ _).mpr
      ⟨[Envelope.jobProgress "job-1" "progress-1"],
       [Envelope.jobSuccess "job-1" "done"], rfl, rfl⟩
  · decide

open Dispatcher in
/-- C1 (amended): for a dispatched `JOB_START` whose method has a registered
job handler and which carries a `reqId`, every admissible envelope order is an
insertion of exactly one `JOB_STARTED{reqId, jobId}` somewhere into the worker
sequence, and the worker sequence is exactly zero or more `JOB_PROGRESS`
envelopes carrying the `jobId` followed by exactly one terminal `JOB_SUCCESS`
or `JOB_ERROR` carrying the `jobId`.  (Because the thread is started before
`JOB_STARTED` is sent, `JOB_STARTED` need not come first.) -/
theorem C1_amended_job_lifecycle {δ : Type} (c : Controller δ) (req : Request δ)
    (jobId m r : String) (h : JobHandler δ)
    (ht : req.type = some "JOB_START") (hm : req.method = some m)
    (hh : c.jobs m = some h) (hr : req.reqId = some r) :
    ∀ t ∈ traces (dispatch c req jobId),
      ∃ l rest, t = l ++ Envelope.jobStarted r jobId :: rest ∧
        l ++ rest = (h req.params).1.map (Envelope.jobProgress jobId) ++
          [terminalEnvelope jobId (h req.params).2] := by
  intro t htr
  have hne : ¬ req.type = some "RPC" := by rw [ht]; decide
  have hd : dispatch c req jobId =
      ⟨[Envelope.jobStarted r jobId],
        (h req.params).1.map (Envelope.jobProgress jobId) ++
          [terminalEnvelope jobId (h req.params).2]⟩ := by
    rw [dispatch, if_neg hne, if_pos ht,
      handleJobStartE_found c req jobId m r h hm hh hr, dispatchAssemble_ok]
    rfl
  rw [hd] at htr
  obtain ⟨l, rest, h1, h2⟩ := (mem_interleavings_singleton _ _ _).mp htr
  exact ⟨l, rest, h2, h1.symm⟩

open Dispatcher in
/-- C1 witness: the amended statement evaluated on the demo job's orderly
trace `JOB_STARTED, JOB_PROGRESS, JOB_SUCCESS`. -/
theorem C1_amended_job_lifecycle_witness :
    ∃ l rest,
      ([Envelope.jobStarted "r1" "job-1",
        Envelope.jobProgress "job-1" "progress-1",
        Envelope.jobSuccess "job-1" ("done" : String)] : List (Envelope String)) =
          l ++ Envelope.jobStarted "r1" "job-1" :: rest ∧
      l ++ rest = (Examples.demoJob none).1.map (Envelope.jobProgress "job-1") ++
        [terminalEnvelope "job-1" (Examples.demoJob none).2] :=
  C1_amended_job_lifecycle Examples.cJob Examples.reqJob "job-1" "work" "r1"
    Examples.demoJob rfl rfl rfl rfl
    [Envelope.jobStarted "r1" "job-1",
     Envelope.jobProgress "job-1" "progress-1",
     Envelope.jobSuccess "job-1" "done"]
    (by
      have hd : dispatch Examples.cJob Examples.reqJob "job-1" =
          ⟨[Envelope.jobStarted "r1" "job-1"],
           [Envelope.jobProgress "job-1" "progress-1",
            Envelope.jobSuccess "job-1" "done"]⟩ := by decide
      rw [hd]
      exact (mem_interleavings_singleton _ _ _).mpr
        ⟨[], [Envelope.jobProgress "job-1" "progress-1",
              Envelope.jobSuccess "job-1" "done"], rfl, rfl⟩)

namespace NavViz

/-- The `list(set(...))` fold keeps the accumulator duplicate-free. -/
theorem pyDedup_foldl_nodup {α : Type} [DecidableEq α] (l : List α) (acc : List α)
    (hacc : acc.Nodup) :
    (l.foldl (fun acc a => if a ∈ acc then acc else acc ++ [a]) acc).Nodup := by
  induction l generalizing acc with
  | nil => exact hacc
  | cons a l ih =>
    rw [List.foldl_cons]
    by_cases h : a ∈ acc
    · rw [if_pos h]
      exact ih acc hacc
    · rw [if_neg h]
      exact ih _ (by simp [List.nodup_append, hacc, h])

/-- `list(set(refs))` has no duplicates. -/
theorem pyDedup_nodup {α : Type} [DecidableEq α] (l : List α) : (pyDedup l).Nodup :=
  pyDedup_foldl_nodup l [] List.nodup_nil

/-- The `list(set(...))` fold preserves membership: nothing beyond exact
duplicates is dropped, and nothing is invented. -/
theorem pyDedup_foldl_mem {α : Type} [DecidableEq α] (l acc : List α) (x : α) :
    (x ∈ l.foldl (fun acc a => if a ∈ acc then acc else acc ++ [a]) acc) ↔
      x ∈ acc ∨ x ∈ l := by
  induction l generalizing acc with
  | nil => simp
  | cons a l ih =>
    rw [List.foldl_cons]
    by_cases h : a ∈ acc
    · rw [if_pos h, ih]
      constructor
      · rintro (h1 | h1)
        · exact Or.inl h1
        · exact Or.inr (List.mem_cons_of_mem _ h1)
      · rintro (h1 | h1)
        · exact Or.inl h1
        · rcases List.mem_cons.mp h1 with rfl | h2
          · exact Or.inl h
          · exact Or.inr h2
    · rw [if_neg h, ih]
      constructor
      · rintro (h1 | h1)
        · rcases List.mem_append.mp h1 with h2 | h2
          · exact Or.inl h2
          · exact Or.inr (List.mem_singleton.mp h2 ▸ List.mem_cons_self _ _)
        · exact Or.inr (List.mem_cons_of_mem _ h1)
      · rintro (h1 | h1)
        · exact Or.inl (List.mem_append_left _ h1)
        · rcases List.mem_cons.mp h1 with rfl | h2
          · exact Or.inl (List.mem_append_right _ (List.mem_singleton.mpr rfl))
          · exact Or.inr h2

/-- `list(set(refs))` keeps exactly the members of `refs`: deduplication is
keyed on the whole element, so distinct `(target, type)` pairs all survive. -/
theorem mem_pyDedup {α : Type} [DecidableEq α] (l : List α) (x : α) :
    x ∈ pyDedup l ↔ x ∈ l := by
  rw [pyDedup, pyDedup_foldl_mem]
  simp

end NavViz

open NavViz in
/-- C8 counterexample: two navigation profiles with the same name and home
page make `_build_graph_if_needed` append the identical
`(Navigation.Responsive, MyModule.Home, SHOWS)` edge twice — the produced
edge list is NOT duplicate-free, so identical duplicate edges are not
deduplicated at construction time. -/
theorem C8_counterexample :
    buildGraph Examples.cexHost = Except.ok Examples.cexGraph ∧
      ¬ Examples.cexGraph.edges.Nodup :=
  ⟨by rfl, by decide⟩

namespace NavViz

/-- `unitRefs` when the id resolves to a page. -/
theorem unitRefs_page (m : HostModel) (cid : String) (pu : PageUnit)
    (hp : pageLookup m cid = some pu) :
    unitRefs m cid = Except.ok (pyDedup (pageRawRefs pu)) := by
  rw [unitRefs, hp]

/-- `unitRefs` when the id resolves to a microflow. -/
theorem unitRefs_microflow (m : HostModel) (cid : String) (mu : MicroflowUnit)
    (hp : pageLookup m cid = none) (hm : microflowLookup m cid = some mu) :
    unitRefs m cid = (microflowRawRefs mu).map pyDedup := by
  rw [unitRefs, hp, hm]

/-- `unitRefs` when the id resolves to no unit (`continue`). -/
theorem unitRefs_missing (m : HostModel) (cid : String)
    (hp : pageLookup m cid = none) (hm : microflowLookup m cid = none) :
    unitRefs m cid = Except.ok [] := by
  rw [unitRefs, hp, hm]

end NavViz

open NavViz in
/-- C8 (amended): the deduplication via set semantics exists only per unit,
and it is keyed on the whole `(target, type)` pair: every reference list
`_get_references_from_unit` hands to the traversal (`list(set(refs))`) is
duplicate-free AND has exactly the members of the raw extracted reference
list — so references to the same target with a different type are all
retained, only exact duplicates are collapsed.  The builder's global edge
list, by contrast, is not deduplicated: the navigation-seeding phase appends
its `SHOWS` edges unconditionally, so identical `(source, target, type)`
triples can occur in the built graph (two profiles sharing a name and home
page suffice — see the counterexample). -/
theorem C8_amended_unit_refs_deduplicated :
    ∀ (m : HostModel) (currentId : String) (l : List (Option String × String)),
      unitRefs m currentId = Except.ok l →
      l.Nodup ∧
      (∀ pu, pageLookup m currentId = some pu →
        ∀ x, (x ∈ l ↔ x ∈ pageRawRefs pu)) ∧
      (∀ mu raw, pageLookup m currentId = none →
        microflowLookup m currentId = some mu →
        microflowRawRefs mu = Except.ok raw → ∀ x, (x ∈ l ↔ x ∈ raw)) := by
  intro m cid l h
  cases hp : pageLookup m cid with
  | some pu =>
    rw [unitRefs_page m cid pu hp] at h
    injection h with h
    subst h
    refine ⟨pyDedup_nodup _, ?_, ?_⟩
    · intro pu2 hpu2 x
      injection hpu2 with hpu2
      subst hpu2
      exact mem_pyDedup _ x
    · intro mu raw hnone _ _ _
      exact Option.noConfusion hnone
  | none =>
    cases hm : microflowLookup m cid with
    | some mu =>
      rw [unitRefs_microflow m cid mu hp hm] at h
      cases hraw : microflowRawRefs mu with
      | error e =>
        rw [hraw] at h
        exact Except.noConfusion h
      | ok raw =>
        rw [hraw] at h
        injection h with h
        subst h
        refine ⟨pyDedup_nodup _, ?_, ?_⟩
        · intro pu2 hpu2 x
          exact Option.noConfusion hpu2
        · intro mu2 raw2 _ hmu2 hraw2 x
          injection hmu2 with hmu2
          subst hmu2
          rw [hraw] at hraw2
          injection hraw2 with hraw2
          subst hraw2
          exact mem_pyDedup _ x
    | none =>
      rw [unitRefs_missing m cid hp hm] at h
      injection h with h
      subst h
      refine ⟨List.nodup_nil, ?_, ?_⟩
      · intro pu2 hpu2 x
        exact Option.noConfusion hpu2
      · intro mu2 raw2 _ hmu2 _ x
        exact Option.noConfusion hmu2

open NavViz in
/-- C8 witness: for the microflow whose raw references are
`[(M.Target, CALLS), (M.Target, CALLS), (M.Target, SHOWS)]`, the per-unit
list is duplicate-free, the duplicated `CALLS` pair is collapsed to one, and
the same-target `SHOWS` reference — a different type on the same pair — is
retained. -/
theorem C8_amended_unit_refs_deduplicated_witness :
    ([((some "M.Target" : Option String), "CALLS"),
      ((some "M.Target" : Option String), "SHOWS")] :
        List (Option String × String)).Nodup ∧
    (((some "M.Target" : Option String), "SHOWS") ∈
        ([((some "M.Target" : Option String), "CALLS"),
          ((some "M.Target" : Option String), "SHOWS")] :
            List (Option String × String)) ↔
      ((some "M.Target" : Option String), "SHOWS") ∈
        ([((some "M.Target" : Option String), "CALLS"),
          ((some "M.Target" : Option String), "CALLS"),
          ((some "M.Target" : Option String), "SHOWS")] :
            List (Option String × String))) :=
  have h := C8_amended_unit_refs_deduplicated Examples.dupHost "M.Dup"
    [((some "M.Target" : Option String), "CALLS"),
     ((some "M.Target" : Option String), "SHOWS")] (by rfl)
  ⟨h.1, h.2.2 Examples.dupMicroflow
    [((some "M.Target" : Option String), "CALLS"),
     ((some "M.Target" : Option String), "CALLS"),
     ((some "M.Target" : Option String), "SHOWS")]
    rfl rfl (by rfl) ((some "M.Target", "SHOWS"))⟩

namespace NavViz

/-- A path is nonempty. -/
theorem IsPath.ne_nil {g : Graph} {s t : String} {p : List String}
    (h : IsPath g s t p) : p ≠ [] := by
  intro he
  rw [he] at h
  exact Option.noConfusion h.1

/-- A path has at least one vertex. -/
theorem IsPath.length_pos {g : Graph} {s t : String} {p : List String}
    (h : IsPath g s t p) : 1 ≤ p.length :=
  List.length_pos.mpr h.ne_nil

/-- A one-vertex path goes from its vertex to itself. -/
theorem isPath_singleton {g : Graph} {s t x : String}
    (h : IsPath g s t [x]) : s = x ∧ t = x := by
  obtain ⟨h1, h2, _⟩ := h
  have hs : x = s := by simpa using h1
  have ht : x = t := by simpa using h2
  exact ⟨hs.symm, ht.symm⟩

/-- The trivial path at `s`. -/
theorem isPath_refl (g : Graph) (s : String) : IsPath g s s [s] :=
  ⟨rfl, rfl, List.chain'_singleton s⟩

/-- Extending a path by one adjacency step. -/
theorem isPath_append {g : Graph} {s cur nb : String} {p : List String}
    (hp : IsPath g s cur p) (hnb : nb ∈ adjGet g cur) :
    IsPath g s nb (p ++ [nb]) := by
  obtain ⟨h1, h2, h3⟩ := hp
  refine ⟨?_, ?_, ?_⟩
  · cases p with
    | nil => exact absurd h1 (by simp)
    | cons a l => simpa using h1
  · simp
  · rw [List.chain'_append]
    refine ⟨h3, List.chain'_singleton nb, ?_⟩
    intro x hx y hy
    rw [h2] at hx
    rw [List.head?_cons] at hy
    obtain rfl : cur = x := by injection hx
    obtain rfl : nb = y := by injection hy
    exact hnb

/-- A path with at least one edge splits off its final step. -/
theorem isPath_snoc {g : Graph} {s v : String} {p : List String}
    (hp : IsPath g s v p) (hlen : 2 ≤ p.length) :
    ∃ q x, p = q ++ [v] ∧ IsPath g s x q ∧ v ∈ adjGet g x ∧
      q.length + 1 = p.length := by
  obtain ⟨h1, h2, h3⟩ := hp
  have hne : p ≠ [] := by
    intro he
    rw [he] at h1
    exact Option.noConfusion h1
  have hsplit : p.dropLast ++ [p.getLast hne] = p := List.dropLast_append_getLast hne
  have hv : p.getLast hne = v := by
    have hgl := List.getLast?_eq_getLast p hne
    rw [hgl] at h2
    exact Option.some_injective _ h2
  have hqlen : p.dropLast.length = p.length - 1 := List.length_dropLast p
  have hqne : p.dropLast ≠ [] := by
    intro he
    rw [he] at hqlen
    simp at hqlen
    omega
  refine ⟨p.dropLast, p.dropLast.getLast hqne, by rw [hv] at hsplit; exact hsplit.symm,
    ⟨?_, List.getLast?_eq_getLast _ hqne, ?_⟩, ?_, ?_⟩
  · -- head of dropLast is head of p
    rw [← hsplit] at h1
    cases hq : p.dropLast with
    | nil => exact absurd hq hqne
    | cons a l =>
      rw [hq] at h1
      exact h1
  · -- chain on the prefix
    rw [← hsplit] at h3
    exact (List.chain'_append.mp h3).1
  · -- the final adjacency step
    rw [← hsplit] at h3
    have hrel := (List.chain'_append.mp h3).2.2
    have := hrel (p.dropLast.getLast hqne) (List.getLast?_eq_getLast _ hqne)
      (p.getLast hne) (List.head?_cons)
    rw [hv] at this
    exact this
  · omega

/-- An id with a nonempty adjacency entry is a node id. -/
theorem mem_adjGet_src {g : Graph} {a b : String} (h : b ∈ adjGet g a) :
    isNodeId g a = true := by
  by_cases hc : isNodeId g a = true
  · exact hc
  · rw [adjGet, if_neg hc] at h
    exact absurd h (List.not_mem_nil b)

/-- Adjacency entries are edge targets. -/
theorem mem_adjGet_target {g : Graph} {a b : String} (h : b ∈ adjGet g a) :
    b ∈ targetsOf g := by
  by_cases hc : isNodeId g a = true
  · rw [adjGet, if_pos hc] at h
    obtain ⟨e, he, rfl⟩ := List.mem_map.mp h
    exact List.mem_toFinset.mpr (List.mem_map.mpr ⟨e, (List.mem_filter.mp he).1, rfl⟩)
  · rw [adjGet, if_neg hc] at h
    exact absurd h (List.not_mem_nil b)

/-- Chain vertices ending in a node id are all node ids (inner vertices have
outgoing adjacency; the last is the node-id end). -/
theorem chain_mem_isNodeId {g : Graph} {t : String} (ht : isNodeId g t = true) :
    ∀ (p : List String), p.getLast? = some t →
      List.Chain' (fun a b => b ∈ adjGet g a) p →
      ∀ x ∈ p, isNodeId g x = true := by
  intro p
  induction p with
  | nil => intro _ _ x hx; exact absurd hx (List.not_mem_nil x)
  | cons a l ih =>
    intro h2 h3 x hx
    cases l with
    | nil =>
      rw [List.mem_singleton] at hx
      subst hx
      have ha : x = t := by simpa using h2
      exact ha ▸ ht
    | cons b l2 =>
      rcases List.mem_cons.mp hx with rfl | hx2
      · exact mem_adjGet_src (List.chain'_cons.mp h3).1
      · rw [List.getLast?_cons_cons] at h2
        exact ih h2 (List.chain'_cons.mp h3).2 x hx2

/-- Every vertex of a path ending in a node id is itself a node id. -/
theorem isPath_mem_isNodeId {g : Graph} {s t : String} {p : List String}
    (hp : IsPath g s t p) (ht : isNodeId g t = true) :
    ∀ x ∈ p, isNodeId g x = true :=
  chain_mem_isNodeId ht p hp.2.1 hp.2.2

/-- `filterMap` by a function defined on every element keeps the length. -/
theorem length_filterMap_isSome {α β : Type} (f : α → Option β) (l : List α)
    (h : ∀ x ∈ l, (f x).isSome) : (l.filterMap f).length = l.length := by
  induction l with
  | nil => rfl
  | cons a l ih =>
    obtain ⟨b, hb⟩ := Option.isSome_iff_exists.mp (h a (List.mem_cons_self a l))
    rw [List.filterMap_cons, hb, List.length_cons,
      ih (fun x hx => h x (List.mem_cons_of_mem a hx)), List.length_cons]

/-- `newOnes` returns unvisited neighbours only. -/
theorem newOnes_sub (vis nbrs : List String) :
    ∀ x ∈ newOnes vis nbrs, x ∈ nbrs ∧ x ∉ vis := by
  induction nbrs generalizing vis with
  | nil => intro x hx; exact absurd hx (List.not_mem_nil x)
  | cons nb rest ih =>
    intro x hx
    rw [newOnes] at hx
    by_cases h : nb ∈ vis
    · rw [if_pos h] at hx
      obtain ⟨h1, h2⟩ := ih vis x hx
      exact ⟨List.mem_cons_of_mem nb h1, h2⟩
    · rw [if_neg h] at hx
      rcases List.mem_cons.mp hx with rfl | hx2
      · exact ⟨List.mem_cons_self _ _, h⟩
      · obtain ⟨h1, h2⟩ := ih (vis ++ [nb]) x hx2
        exact ⟨List.mem_cons_of_mem nb h1,
          fun hc => h2 (List.mem_append_left _ hc)⟩

/-- `newOnes` has no duplicates. -/
theorem newOnes_nodup (vis nbrs : List String) : (newOnes vis nbrs).Nodup := by
  induction nbrs generalizing vis with
  | nil => exact List.nodup_nil
  | cons nb rest ih =>
    rw [newOnes]
    by_cases h : nb ∈ vis
    · rw [if_pos h]
      exact ih vis
    · rw [if_neg h]
      refine List.nodup_cons.mpr ⟨?_, ih (vis ++ [nb])⟩
      intro hc
      exact (newOnes_sub (vis ++ [nb]) rest nb hc).2
        (List.mem_append_right _ (List.mem_singleton.mpr rfl))

/-- Every neighbour ends up visited: either it already was, or `newOnes`
admits it. -/
theorem mem_vis_newOnes (vis nbrs : List String) :
    ∀ x ∈ nbrs, x ∈ vis ++ newOnes vis nbrs := by
  induction nbrs generalizing vis with
  | nil => intro x hx; exact absurd hx (List.not_mem_nil x)
  | cons nb rest ih =>
    intro x hx
    rw [newOnes]
    by_cases h : nb ∈ vis
    · rw [if_pos h]
      rcases List.mem_cons.mp hx with rfl | hx2
      · exact List.mem_append_left _ h
      · exact ih vis x hx2
    · rw [if_neg h]
      rcases List.mem_cons.mp hx with rfl | hx2
      · exact List.mem_append_right _ (List.mem_cons_self _ _)
      · have := ih (vis ++ [nb]) x hx2
        rw [List.mem_append] at this ⊢
        rcases this with h1 | h1
        · rw [List.mem_append] at h1
          rcases h1 with h2 | h2
          · exact Or.inl h2
          · exact Or.inr (List.mem_singleton.mp h2 ▸ List.mem_cons_self _ _)
        · exact Or.inr (List.mem_cons_of_mem _ h1)

/-- The inner `for neighbor in ...` loop in closed form: it appends the
`newOnes` to the visited list and the corresponding entries to the queue. -/
theorem enqueue_eq (path : List String) (vis : List String)
    (q : List (String × List String)) (nbrs : List String) :
    enqueue path vis q nbrs =
      (vis ++ newOnes vis nbrs,
       q ++ (newOnes vis nbrs).map (fun nb => (nb, path ++ [nb]))) := by
  induction nbrs generalizing vis q with
  | nil => simp [enqueue, newOnes]
  | cons nb rest ih =>
    by_cases h : nb ∈ vis
    · rw [newOnes, if_pos h]
      have h1 : enqueue path vis q (nb :: rest) = enqueue path vis q rest := by
        rw [enqueue, enqueue, List.foldl_cons]
        congr 1
        simp [h]
      rw [h1]
      exact ih vis q
    · rw [newOnes, if_neg h]
      have h1 : enqueue path vis q (nb :: rest) =
          enqueue path (vis ++ [nb]) (q ++ [(nb, path ++ [nb])]) rest := by
        rw [enqueue, enqueue, List.foldl_cons]
        congr 1
        simp [h]
      rw [h1, ih (vis ++ [nb]) (q ++ [(nb, path ++ [nb])])]
      simp [List.append_assoc]

end NavViz

namespace NavViz

/-- A relation holding universally is pairwise on every list. -/
theorem pairwise_of_all {α : Type} {R : α → α → Prop} (h : ∀ a b, R a b) :
    ∀ l : List α, List.Pairwise R l
  | [] => List.Pairwise.nil
  | a :: l => List.Pairwise.cons (fun b _ => h a b) (pairwise_of_all h l)

/-- In a level-sorted queue the head entry has the minimal path length. -/
theorem pairwise_head_le {l : List (String × List String)} {e₀ : String × List String}
    (hp : List.Pairwise
      (fun a b => a.2.length ≤ b.2.length ∧ b.2.length ≤ a.2.length + 1) l)
    (hh : l.head? = some e₀) : ∀ e ∈ l, e₀.2.length ≤ e.2.length := by
  cases l with
  | nil => exact absurd hh (by simp)
  | cons a l =>
    have ha : a = e₀ := by
      rw [List.head?_cons] at hh
      injection hh
    subst ha
    intro e he
    rcases List.mem_cons.mp he with rfl | he2
    · exact le_refl _
    · exact ((List.pairwise_cons.mp hp).1 e he2).1

/-- Absorbing a duplicate-free list of fresh targets into the visited set
decreases the unvisited-targets count by exactly its length. -/
theorem card_sdiff_append (g : Graph) (vis N : List String)
    (hsub : ∀ x ∈ N, x ∈ targetsOf g ∧ x ∉ vis) (hnd : N.Nodup) :
    (targetsOf g \ (vis ++ N).toFinset).card + N.length =
      (targetsOf g \ vis.toFinset).card := by
  have h1 : (vis ++ N).toFinset = vis.toFinset ∪ N.toFinset := List.toFinset_append
  have h2 : targetsOf g \ (vis.toFinset ∪ N.toFinset) =
      (targetsOf g \ vis.toFinset) \ N.toFinset := by
    ext a
    simp only [Finset.mem_sdiff, Finset.mem_union, not_or]
    tauto
  have h3 : N.toFinset ⊆ targetsOf g \ vis.toFinset := by
    intro x hx
    rw [List.mem_toFinset] at hx
    obtain ⟨hT, hv⟩ := hsub x hx
    exact Finset.mem_sdiff.mpr ⟨hT, fun hc => hv (List.mem_toFinset.mp hc)⟩
  have h4 : N.toFinset.card = N.length := List.toFinset_card_of_nodup hnd
  have h5 := Finset.card_le_card h3
  rw [h1, h2, Finset.card_sdiff h3, h4]
  omega

/-- Each BFS iteration decreases the potential by exactly one. -/
theorem phi_step (g : Graph) (cur : String) (path : List String)
    (rest : List (String × List String)) (vis : List String) :
    phi g (rest ++ (newOnes vis (adjGet g cur)).map (fun nb => (nb, path ++ [nb])))
        (vis ++ newOnes vis (adjGet g cur)) + 1 =
      phi g ((cur, path) :: rest) vis := by
  have hsub : ∀ x ∈ newOnes vis (adjGet g cur), x ∈ targetsOf g ∧ x ∉ vis := by
    intro x hx
    obtain ⟨h1, h2⟩ := newOnes_sub vis (adjGet g cur) x hx
    exact ⟨mem_adjGet_target h1, h2⟩
  have hc := card_sdiff_append g vis _ hsub (newOnes_nodup _ _)
  rw [phi, phi, List.length_append, List.length_map, List.length_cons]
  omega

/-- The invariant holds for the initial BFS state
(`queue = deque([(start, [start])])`, `visited = {start}`). -/
theorem bfsInv_init (g : Graph) (s t : String) : BfsInv g s t [(s, [s])] [s] := by
  refine ⟨?_, ?_, ?_, ?_, ?_, ?_, ?_, ?_⟩
  · intro e he
    rw [List.mem_singleton] at he
    subst he
    exact isPath_refl g s
  · intro e he p hp
    rw [List.mem_singleton] at he
    subst he
    simpa using hp.length_pos
  · intro e he
    rw [List.mem_singleton] at he
    subst he
    exact List.mem_singleton.mpr rfl
  · exact List.mem_singleton.mpr rfl
  · exact List.pairwise_singleton _ _
  · intro e₀ hh v p hp hv
    have he : (s, [s]) = e₀ := by
      rw [List.head?_cons] at hh
      injection hh
    subst he
    by_contra hc
    have hl : ((s, [s]).2).length = 1 := rfl
    have hp1 := hp.length_pos
    have h1 : p.length = 1 := by omega
    obtain ⟨x, hx⟩ := List.length_eq_one.mp h1
    subst hx
    obtain ⟨hs, hv2⟩ := isPath_singleton hp
    exact hv (by rw [hv2, ← hs]; exact List.mem_singleton.mpr rfl)
  · intro v hv hne nb hnb
    rw [List.mem_singleton] at hv
    subst hv
    exact absurd rfl (hne (v, [v]) (List.mem_singleton.mpr rfl))
  · intro ht
    rw [List.mem_singleton] at ht
    exact ⟨(s, [s]), List.mem_singleton.mpr rfl, ht.symm⟩

end NavViz

namespace NavViz

/-- The element a `head?` hit points at is a member. -/
theorem mem_of_headOpt {α : Type} {l : List α} {a : α} (h : l.head? = some a) :
    a ∈ l := by
  cases l with
  | nil => exact absurd h (by simp)
  | cons b l =>
    rw [List.head?_cons] at h
    injection h with h
    subst h
    exact List.mem_cons_self b l

/-- One BFS iteration preserves the invariant: popping `(cur, path)` with
`cur` not the end node, and enqueueing the fresh neighbours at level
`path.length + 1`. -/
theorem bfsInv_step (g : Graph) (s t cur : String) (path : List String)
    (rest : List (String × List String)) (vis : List String)
    (hinv : BfsInv g s t ((cur, path) :: rest) vis) (hne : cur ≠ t) :
    BfsInv g s t
      (rest ++ (newOnes vis (adjGet g cur)).map (fun nb => (nb, path ++ [nb])))
      (vis ++ newOnes vis (adjGet g cur)) := by
  have hNsub : ∀ x ∈ newOnes vis (adjGet g cur), x ∈ adjGet g cur ∧ x ∉ vis :=
    newOnes_sub vis (adjGet g cur)
  have hNcomp : ∀ x ∈ adjGet g cur, x ∈ vis ++ newOnes vis (adjGet g cur) :=
    mem_vis_newOnes vis (adjGet g cur)
  have hpath : IsPath g s cur path :=
    hinv.entries_path (cur, path) (List.mem_cons_self _ _)
  have hfr0 : ∀ v p, IsPath g s v p → v ∉ vis → path.length + 1 ≤ p.length :=
    fun v p hp hv => hinv.frontier (cur, path) rfl v p hp hv
  have hrestlv : ∀ e ∈ rest,
      path.length ≤ e.2.length ∧ e.2.length ≤ path.length + 1 := by
    intro e he
    exact (List.pairwise_cons.mp hinv.levels).1 e he
  have hresttail := (List.pairwise_cons.mp hinv.levels).2
  refine ⟨?_, ?_, ?_, ?_, ?_, ?_, ?_, ?_⟩
  · -- entries_path
    intro e he
    rcases List.mem_append.mp he with h | h
    · exact hinv.entries_path e (List.mem_cons_of_mem _ h)
    · obtain ⟨nb, hnb, rfl⟩ := List.mem_map.mp h
      exact isPath_append hpath (hNsub nb hnb).1
  · -- entries_min
    intro e he p hp
    rcases List.mem_append.mp he with h | h
    · exact hinv.entries_min e (List.mem_cons_of_mem _ h) p hp
    · obtain ⟨nb, hnb, rfl⟩ := List.mem_map.mp h
      have := hfr0 nb p hp (hNsub nb hnb).2
      simpa using this
  · -- entries_vis
    intro e he
    rcases List.mem_append.mp he with h | h
    · exact List.mem_append_left _ (hinv.entries_vis e (List.mem_cons_of_mem _ h))
    · obtain ⟨nb, hnb, rfl⟩ := List.mem_map.mp h
      exact List.mem_append_right _ hnb
  · -- start_vis
    exact List.mem_append_left _ hinv.start_vis
  · -- levels
    rw [List.pairwise_append]
    refine ⟨hresttail, ?_, ?_⟩
    · rw [List.pairwise_map]
      apply pairwise_of_all
      intro a b
      exact ⟨by simp, by simp⟩
    · intro a ha b hb
      obtain ⟨nb, hnb, rfl⟩ := List.mem_map.mp hb
      obtain ⟨h1, h2⟩ := hrestlv a ha
      constructor
      · simpa using h2
      · simp only [List.length_append, List.length_singleton]
        omega
  · -- frontier
    intro e₀ hh v p hp hv
    have hv1 : v ∉ vis := fun hc => hv (List.mem_append_left _ hc)
    have hbase : path.length + 1 ≤ p.length := hfr0 v p hp hv1
    have he₀ := mem_of_headOpt hh
    have hk : e₀.2.length ≤ path.length ∨ e₀.2.length = path.length + 1 := by
      rcases List.mem_append.mp he₀ with h | h
      · obtain ⟨h1, h2⟩ := hrestlv e₀ h
        omega
      · obtain ⟨nb, hnb, rfl⟩ := List.mem_map.mp h
        right
        simp
    rcases hk with hk | hk
    · omega
    · by_contra hc
      have hplen : p.length = path.length + 1 := by omega
      have hplen2 : 2 ≤ p.length := by
        have := hpath.length_pos
        omega
      obtain ⟨q0, x, hpq, hq0path, hxadj, hq0len⟩ := isPath_snoc hp hplen2
      have hq0len2 : q0.length = path.length := by omega
      have hxvis : x ∈ vis := by
        by_contra hxv
        have := hfr0 x q0 hq0path hxv
        omega
      by_cases hxcur : x = cur
      · subst hxcur
        exact hv (hNcomp v hxadj)
      · have hallrest : ∀ e ∈ rest, e₀.2.length ≤ e.2.length := by
          intro e he
          have hrne : rest ≠ [] := List.ne_nil_of_mem he
          have hh2 : rest.head? = some e₀ := by
            cases rest with
            | nil => exact absurd rfl hrne
            | cons a rs =>
              rw [List.cons_append, List.head?_cons] at hh
              rw [List.head?_cons]
              exact hh
          exact pairwise_head_le hresttail hh2 e he
        have hnox : ∀ e ∈ (cur, path) :: rest, e.1 ≠ x := by
          intro e he
          rcases List.mem_cons.mp he with rfl | he2
          · exact fun hc2 => hxcur hc2.symm
          · intro hc2
            have hminx := hinv.entries_min e (List.mem_cons_of_mem _ he2) q0
              (by rw [hc2]; exact hq0path)
            have hlev := hallrest e he2
            omega
        have := hinv.closure x hxvis hnox v hxadj
        exact hv (List.mem_append_left _ this)
  · -- closure
    intro v hv hnq nb hnb
    rcases List.mem_append.mp hv with hvv | hvN
    · by_cases hvc : v = cur
      · subst hvc
        exact hNcomp nb hnb
      · have hnq2 : ∀ e ∈ (cur, path) :: rest, e.1 ≠ v := by
          intro e he
          rcases List.mem_cons.mp he with rfl | he2
          · exact fun hc => hvc hc.symm
          · exact hnq e (List.mem_append_left _ he2)
        exact List.mem_append_left _ (hinv.closure v hvv hnq2 nb hnb)
    · exact absurd rfl
        (hnq (v, path ++ [v])
          (List.mem_append_right _ (List.mem_map.mpr ⟨v, hvN, rfl⟩)))
  · -- target_mem
    intro ht2
    rcases List.mem_append.mp ht2 with h | h
    · obtain ⟨e, he, he1⟩ := hinv.target_mem h
      rcases List.mem_cons.mp he with rfl | he2
      · exact absurd he1 hne
      · exact ⟨e, List.mem_append_left _ he2, he1⟩
    · exact ⟨(t, path ++ [t]),
        List.mem_append_right _ (List.mem_map.mpr ⟨t, h, rfl⟩), rfl⟩

end NavViz

namespace NavViz

/-- A visited set closed under adjacency and containing `s` contains every
node reachable from `s`. -/
theorem closed_mem_of_path (g : Graph) (s : String) (vis : List String)
    (hcl : ∀ v ∈ vis, ∀ nb ∈ adjGet g v, nb ∈ vis) (hs : s ∈ vis) :
    ∀ (p : List String) (v : String), IsPath g s v p → v ∈ vis := by
  have aux : ∀ (p : List String) (a : String), p.head? = some a → a ∈ vis →
      List.Chain' (fun x y => y ∈ adjGet g x) p → ∀ x ∈ p, x ∈ vis := by
    intro p
    induction p with
    | nil => intro a _ _ _ x hx; exact absurd hx (List.not_mem_nil x)
    | cons b l ih =>
      intro a hh ha hch x hx
      have hb : b = a := by
        rw [List.head?_cons] at hh
        injection hh
      subst hb
      rcases List.mem_cons.mp hx with rfl | hx2
      · exact ha
      · cases l with
        | nil => exact absurd hx2 (List.not_mem_nil x)
        | cons c l2 =>
          have hc : c ∈ vis := hcl b ha c (List.chain'_cons.mp hch).1
          exact ih c rfl hc (List.chain'_cons.mp hch).2 x hx2
  intro p v hp
  have hne := hp.ne_nil
  have hvmem : v ∈ p := by
    have h2 := hp.2.1
    rw [List.getLast?_eq_getLast p hne] at h2
    have h3 := Option.some_injective _ h2
    exact h3 ▸ List.getLast_mem hne
  exact aux p s hp.1 hs hp.2.2 v hvmem

/-- Soundness: a path the BFS loop returns is a shortest path from `s` to `t`. -/
theorem bfsLoop_some_spec (g : Graph) (s t : String) :
    ∀ (fuel : Nat) (q : List (String × List String)) (vis : List String)
      (p : List String), BfsInv g s t q vis → bfsLoop g t fuel q vis = some p →
      IsPath g s t p ∧ ∀ p2, IsPath g s t p2 → p.length ≤ p2.length := by
  intro fuel
  induction fuel with
  | zero =>
    intro q vis p _ h
    rw [bfsLoop] at h
    exact Option.noConfusion h
  | succ f ih =>
    intro q vis p hinv h
    rcases q with _ | ⟨⟨cur, path⟩, rest⟩
    · rw [bfsLoop] at h
      exact Option.noConfusion h
    · rw [bfsLoop] at h
      by_cases hc : cur = t
      · rw [if_pos hc] at h
        injection h with h
        have h1 := hinv.entries_path (cur, path) (List.mem_cons_self _ _)
        have h2 := hinv.entries_min (cur, path) (List.mem_cons_self _ _)
        rw [hc] at h1 h2
        rw [← h]
        exact ⟨h1, h2⟩
      · rw [if_neg hc] at h
        rw [enqueue_eq] at h
        exact ih _ _ p (bfsInv_step g s t cur path rest vis hinv hc) h

/-- Completeness: with the invariant, sufficient fuel, and `t` reachable, the
BFS loop finds a path. -/
theorem bfsLoop_complete (g : Graph) (s t : String) :
    ∀ (fuel : Nat) (q : List (String × List String)) (vis : List String),
      BfsInv g s t q vis → phi g q vis < fuel → Reachable g s t →
      ∃ p, bfsLoop g t fuel q vis = some p := by
  intro fuel
  induction fuel with
  | zero =>
    intro q vis _ hphi _
    exact absurd hphi (Nat.not_lt_zero _)
  | succ f ih =>
    intro q vis hinv hphi hreach
    rcases q with _ | ⟨⟨cur, path⟩, rest⟩
    · exfalso
      obtain ⟨p, hp⟩ := hreach
      have hcl : ∀ v ∈ vis, ∀ nb ∈ adjGet g v, nb ∈ vis := by
        intro v hv nb hnb
        exact hinv.closure v hv
          (fun e he => absurd he (List.not_mem_nil e)) nb hnb
      have ht := closed_mem_of_path g s vis hcl hinv.start_vis p t hp
      obtain ⟨e, he, _⟩ := hinv.target_mem ht
      exact absurd he (List.not_mem_nil e)
    · by_cases hc : cur = t
      · exact ⟨path, by rw [bfsLoop, if_pos hc]⟩
      · have hstep := phi_step g cur path rest vis
        have hphi2 : phi g
            (rest ++ (newOnes vis (adjGet g cur)).map (fun nb => (nb, path ++ [nb])))
            (vis ++ newOnes vis (adjGet g cur)) < f := by
          omega
        obtain ⟨p, hp⟩ :=
          ih _ _ (bfsInv_step g s t cur path rest vis hinv hc) hphi2 hreach
        exact ⟨p, by rw [bfsLoop, if_neg hc, enqueue_eq]; exact hp⟩

/-- The chosen fuel strictly exceeds the initial potential. -/
theorem phi_init_lt (g : Graph) (s : String) :
    phi g [(s, [s])] [s] < g.edges.length + 2 := by
  rw [phi, List.length_singleton]
  have h1 : (targetsOf g \ [s].toFinset).card ≤ (targetsOf g).card :=
    Finset.card_le_card Finset.sdiff_subset
  have h2 : (targetsOf g).card ≤ (g.edges.map (fun e => e.target)).length :=
    List.toFinset_card_le _
  rw [List.length_map] at h2
  omega

end NavViz

open NavViz in
/-- C3: `findPaths(startId, endId)` returns at most one path; when both ids
are in the node set and `endId` is reachable from `startId` along forward
adjacency, the single returned path is a shortest path by edge count from
start to end inclusive (every id on it resolves to a node object); when either
id is absent or the end is unreachable, it returns `[]`. -/
theorem C3_find_paths_shortest : ∀ (g : Graph) (s t : String),
    (find_paths g s t).length ≤ 1 ∧
    (isNodeId g s = true → isNodeId g t = true → Reachable g s t →
      ∃ ids, IsPath g s t ids ∧ (∀ p, IsPath g s t p → ids.length ≤ p.length) ∧
        find_paths g s t = [ids.filterMap (fun i => nodesById g i)] ∧
        (ids.filterMap (fun i => nodesById g i)).length = ids.length) ∧
    ((isNodeId g s = false ∨ isNodeId g t = false ∨ ¬ Reachable g s t) →
      find_paths g s t = []) := by
  intro g s t
  refine ⟨?_, ?_, ?_⟩
  · rw [find_paths]
    by_cases hcond : (isNodeId g s && isNodeId g t) = true
    · rw [if_pos hcond]
      cases hb : bfsLoop g t (g.edges.length + 2) [(s, [s])] [s] <;> simp
    · rw [if_neg hcond]
      simp
  · intro hs ht hreach
    obtain ⟨ids, hids⟩ := bfsLoop_complete g s t (g.edges.length + 2)
      [(s, [s])] [s] (bfsInv_init g s t) (phi_init_lt g s) hreach
    obtain ⟨hpath, hmin⟩ := bfsLoop_some_spec g s t (g.edges.length + 2)
      [(s, [s])] [s] ids (bfsInv_init g s t) hids
    refine ⟨ids, hpath, hmin, ?_, ?_⟩
    · rw [find_paths, if_pos (by rw [hs, ht]; rfl), hids]
    · apply length_filterMap_isSome
      intro x hx
      rw [nodesById_isSome]
      exact isPath_mem_isNodeId hpath ht x hx
  · intro hbad
    rcases hbad with h | h | h
    · rw [find_paths, if_neg (by rw [h]; simp)]
    · rw [find_paths, if_neg (by rw [h]; simp)]
    · rw [find_paths]
      by_cases hcond : (isNodeId g s && isNodeId g t) = true
      · rw [if_pos hcond]
        cases hb : bfsLoop g t (g.edges.length + 2) [(s, [s])] [s] with
        | none => rfl
        | some p =>
          exact absurd
            ⟨p, (bfsLoop_some_spec g s t (g.edges.length + 2) [(s, [s])] [s] p
              (bfsInv_init g s t) hb).1⟩ h
      · rw [if_neg hcond]

open NavViz in
/-- C3 witness: in the witness graph (edge `a → b`), `findPaths("a", "b")`
returns the single shortest path, and `findPaths("zz", "b")` with the absent
start id returns `[]`. -/
theorem C3_find_paths_shortest_witness :
    (find_paths Examples.gW "a" "b").length ≤ 1 ∧
    (∃ ids, IsPath Examples.gW "a" "b" ids ∧
      (∀ p, IsPath Examples.gW "a" "b" p → ids.length ≤ p.length) ∧
      find_paths Examples.gW "a" "b" =
        [ids.filterMap (fun i => nodesById Examples.gW i)] ∧
      (ids.filterMap (fun i => nodesById Examples.gW i)).length = ids.length) ∧
    find_paths Examples.gW "zz" "b" = [] :=
  ⟨(C3_find_paths_shortest Examples.gW "a" "b").1,
   (C3_find_paths_shortest Examples.gW "a" "b").2.1 (by decide) (by decide)
     ⟨["a", "b"], rfl, rfl,
       List.chain'_cons.mpr ⟨by decide, List.chain'_singleton _⟩⟩,
   (C3_find_paths_shortest Examples.gW "zz" "b").2.2 (Or.inl (by decide))⟩
